import Mathlib

/-!
Verification of the banking CSV-to-relational-tables transform (`src/ETL.py`).

The embedding models the pandas-based pipeline over an explicit table type:
cell values are strings, parsed numbers, parsed timestamps, or the missing
marker (pandas `NaN` / `NaT`); a table is an ordered list of column headers
together with rows of values aligned positionally with the headers.
Library behaviour that the script relies on (SHA-1, regex stripping, float
parsing, `drop_duplicates(keep="first")`, `NaN == NaN` for deduplication)
is embedded directly; the heuristic date parser of `pandas.to_datetime` is
modelled for the common layouts named by the specification.
-/

namespace ETL

/-! ## String utilities

`String.trim`/`String.toLower` analogues over character lists, so that all
definitions reduce inside the kernel.  Matching in the script is restricted
to ASCII headers, which these cover. -/

/-- Whitespace for header/target normalization (Python `str.strip`). -/
def isWS (c : Char) : Bool := c = ' ' ∨ c = '\t' ∨ c = '\n' ∨ c = '\r'

/-- ASCII lower-casing of one character (Python `str.lower` on ASCII). -/
def toLowerChar (c : Char) : Char :=
  if 'A' ≤ c ∧ c ≤ 'Z' then Char.ofNat (c.toNat + 32) else c

/-- Strip leading and trailing whitespace from a character list. -/
def trimChars (l : List Char) : List Char :=
  ((l.dropWhile isWS).reverse.dropWhile isWS).reverse

/-- `s.strip().lower()`: the normalized form used for column matching. -/
def normKey (s : String) : String := ⟨(trimChars s.data).map toLowerChar⟩

/-- Split a character list on a separator character (Python `str.split(sep)`). -/
def splitAux (sep : Char) : List Char → List Char → List String
  | acc, [] => [⟨acc.reverse⟩]
  | acc, c :: cs =>
      if c = sep then ⟨acc.reverse⟩ :: splitAux sep [] cs
      else splitAux sep (c :: acc) cs

def splitOnChar (sep : Char) (s : String) : List String := splitAux sep [] s.data

/-- Parse a nonempty all-digit string as a natural number. -/
def digitsVal (l : List Char) : Nat := l.foldl (fun n c => 10 * n + (c.toNat - 48)) 0

def strToNat? (s : String) : Option Nat :=
  if s.data ≠ [] ∧ s.data.all Char.isDigit then some (digitsVal s.data) else none

/-- First `n` characters of a string (Python slicing `s[:n]`). -/
def strTake (s : String) (n : Nat) : String := ⟨s.data.take n⟩

/-- UTF-8 encoding of a single character, as a list of byte values. -/
def utf8Bytes (c : Char) : List Nat :=
  let n := c.toNat
  if n < 128 then [n]
  else if n < 2048 then [192 + n / 64, 128 + n % 64]
  else if n < 65536 then [224 + n / 4096, 128 + (n / 64) % 64, 128 + n % 64]
  else [240 + n / 262144, 128 + (n / 4096) % 64, 128 + (n / 64) % 64, 128 + n % 64]

/-- UTF-8 encoding of a string (Python `s.encode("utf-8")`). -/
def strBytes (s : String) : List Nat := s.data.flatMap utf8Bytes

/-! ## SHA-1 (`hashlib.sha1`)

A direct embedding of the SHA-1 digest used by `make_account_id`; 32-bit
words are naturals kept below `2 ^ 32` by explicit truncation. -/

/-- 32-bit truncation. -/
def mod32 (x : Nat) : Nat := x % 4294967296

/-- Left rotation of a 32-bit word by `n` bits. -/
def rotl (n x : Nat) : Nat := Nat.lor (mod32 (x <<< n)) (x >>> (32 - n))

/-- SHA-1 padding: append `0x80`, zero bytes, then the 64-bit big-endian bit length. -/
def padMessage (msg : List Nat) : List Nat :=
  let len := msg.length
  let padLen := (119 - len % 64) % 64
  msg ++ [128] ++ List.replicate padLen 0 ++
    (List.range 8).map (fun i => ((8 * len) >>> (56 - 8 * i)) % 256)

/-- Group bytes into 32-bit big-endian words. -/
def bytesToWords : List Nat → List Nat
  | b0 :: b1 :: b2 :: b3 :: rest => (((b0 * 256 + b1) * 256 + b2) * 256 + b3) :: bytesToWords rest
  | _ => []

/-- Split a byte list into 64-byte chunks; the accumulator holds the current
partial chunk in reverse. -/
def chunksAux : List Nat → List Nat → List (List Nat)
  | acc, [] => if acc.isEmpty then [] else [acc.reverse]
  | acc, b :: bs =>
      if acc.length = 63 then (b :: acc).reverse :: chunksAux [] bs
      else chunksAux (b :: acc) bs

def chunks64 (l : List Nat) : List (List Nat) := chunksAux [] l

/-- Extend the 16 message words to 80 schedule words (accumulator reversed). -/
def sha1Extend : Nat → List Nat → List Nat
  | 0, acc => acc.reverse
  | n + 1, acc =>
      sha1Extend n
        (rotl 1 (Nat.xor (Nat.xor (acc.getD 2 0) (acc.getD 7 0))
          (Nat.xor (acc.getD 13 0) (acc.getD 15 0))) :: acc)

/-- SHA-1 round function. -/
def sha1F (i b c d : Nat) : Nat :=
  if i < 20 then Nat.lor (Nat.land b c) (Nat.land (Nat.xor b 4294967295) d)
  else if i < 40 then Nat.xor (Nat.xor b c) d
  else if i < 60 then Nat.lor (Nat.lor (Nat.land b c) (Nat.land b d)) (Nat.land c d)
  else Nat.xor (Nat.xor b c) d

/-- SHA-1 round constants. -/
def sha1K (i : Nat) : Nat :=
  if i < 20 then 0x5A827999
  else if i < 40 then 0x6ED9EBA1
  else if i < 60 then 0x8F1BBCDC
  else 0xCA62C1D6

/-- The 80 compression rounds. -/
def sha1Rounds : Nat → List Nat → Nat × Nat × Nat × Nat × Nat → Nat × Nat × Nat × Nat × Nat
  | _, [], st => st
  | i, w :: ws, (a, b, c, d, e) =>
      let t := mod32 (rotl 5 a + sha1F i b c d + e + sha1K i + w)
      sha1Rounds (i + 1) ws (t, a, rotl 30 b, c, d)

/-- Process one 64-byte chunk. -/
def sha1Chunk (h : Nat × Nat × Nat × Nat × Nat) (chunk : List Nat) :
    Nat × Nat × Nat × Nat × Nat :=
  let w := sha1Extend 64 (bytesToWords chunk).reverse
  match h, sha1Rounds 0 w h with
  | (h0, h1, h2, h3, h4), (a, b, c, d, e) =>
      (mod32 (h0 + a), mod32 (h1 + b), mod32 (h2 + c), mod32 (h3 + d), mod32 (h4 + e))

/-- SHA-1 digest of a byte list, as the five 32-bit state words. -/
def sha1Words (msg : List Nat) : Nat × Nat × Nat × Nat × Nat :=
  (chunks64 (padMessage msg)).foldl sha1Chunk
    (0x67452301, 0xEFCDAB89, 0x98BADCFE, 0x10325476, 0xC3D2E1F0)

/-- Lowercase hex rendering of a 32-bit word, 8 digits. -/
def toHex8 (x : Nat) : String :=
  String.mk ((List.range 8).map (fun i => Nat.digitChar ((x >>> (28 - 4 * i)) % 16)))

/-- Lowercase hex digest (`hashlib.sha1(...).hexdigest()`, 40 characters). -/
def sha1Hex (msg : List Nat) : String :=
  match sha1Words msg with
  | (h0, h1, h2, h3, h4) => toHex8 h0 ++ toHex8 h1 ++ toHex8 h2 ++ toHex8 h3 ++ toHex8 h4

/-! ## Values and tables -/

/-- A parsed calendar timestamp (`pandas.Timestamp`, to second precision). -/
structure DateTime where
  year : Nat
  month : Nat
  day : Nat
  hour : Nat
  minute : Nat
  second : Nat
deriving DecidableEq, Repr

/-- A cell value: the explicit missing marker (`NaN` / `NaT`), a raw string
(the CSV is read with `dtype=str`), a parsed float (modelled exactly as a
rational), or a parsed timestamp. -/
inductive Val where
  | missing
  | str (s : String)
  | num (q : ℚ)
  | date (d : DateTime)
deriving DecidableEq, Repr

/-- A data frame: ordered column headers plus rows aligned positionally. -/
structure Table where
  cols : List String
  rows : List (List Val)
deriving DecidableEq, Repr

/-- Well-formedness: every row has one cell per column. -/
def Table.WF (t : Table) : Prop := ∀ r ∈ t.rows, r.length = t.cols.length

instance (t : Table) : Decidable t.WF := List.decidableBAll _ _

/-- Index of the first column with the given header, if any. -/
def colIdx : List String → String → Option Nat
  | [], _ => none
  | c0 :: cs, c => if c0 = c then some 0 else (colIdx cs c).map (· + 1)

/-- The value of row `row` in the (first) column named `c`; missing when the
column is absent or the row is too short. -/
def lookupVal (cols : List String) (row : List Val) (c : String) : Val :=
  match colIdx cols c with
  | some i => row.getD i Val.missing
  | none => Val.missing

/-- Replace the entry at position `i` (no-op past the end of the list). -/
def updateAt (f : Val → Val) : Nat → List Val → List Val
  | _, [] => []
  | 0, v :: r => f v :: r
  | n + 1, v :: r => v :: updateAt f n r

/-! ## Column Resolver (`find_col`, lines 51-58)

The source skips `None` headers; after `main` trims the headers every entry
is a string, so the model ranges over string headers only. -/

/-- First column whose trimmed lower-cased form equals that of the target. -/
def find_col (df_cols : List String) (target : String) : Option String :=
  let target_key := normKey target
  df_cols.find? (fun c => normKey c == target_key)

/-! ## Type Coercer -/

/-- The characters kept by `str.replace(r"[^\d\.\-eE]", "", regex=True)`. -/
def isNumericChar (c : Char) : Bool :=
  c.isDigit || c == '.' || c == '-' || c == 'e' || c == 'E'

/-- Drop every character the regex replaces with the empty string. -/
def stripChars : List Char → List Char
  | [] => []
  | c :: cs => if isNumericChar c then c :: stripChars cs else stripChars cs

def stripNonNumeric (s : String) : String := ⟨stripChars s.data⟩

/-- Digit span: leading digits and the remainder. -/
def spanDigits (l : List Char) : List Char × List Char :=
  (l.takeWhile Char.isDigit, l.dropWhile Char.isDigit)

/-- Parse the C-float grammar accepted by `pandas.to_numeric` on strings:
`[+-]? (digits [. digits?] | . digits) ([eE] [+-]? digits)?`, requiring the
whole string to be consumed.  The result is returned as all-natural parts
`(negative, mantissa, fractional-digit-count, exponent-negative, exponent)`. -/
def parseFloatParts (s : String) : Option (Bool × Nat × Nat × Bool × Nat) :=
  let (neg, cs) :=
    match s.data with
    | '-' :: r => (true, r)
    | '+' :: r => (false, r)
    | r => (false, r)
  let (ip, r1) := spanDigits cs
  let (hasDot, fp, r2) :=
    match r1 with
    | '.' :: r =>
        let (d, r3) := spanDigits r
        (true, d, r3)
    | _ => (false, ([] : List Char), r1)
  if ip = [] ∧ (¬ hasDot ∨ fp = []) then none
  else
    let mant := digitsVal ip * 10 ^ fp.length + digitsVal fp
    match r2 with
    | [] => some (neg, mant, fp.length, false, 0)
    | 'e' :: r3 =>
        match
          (match r3 with
           | '-' :: r4 => some (true, r4)
           | '+' :: r4 => some (false, r4)
           | r4 => some (false, r4)) with
        | some (eneg, r5) =>
            let (ed, r6) := spanDigits r5
            if ed = [] ∨ r6 ≠ [] then none else some (neg, mant, fp.length, eneg, digitsVal ed)
        | none => none
    | 'E' :: r3 =>
        match
          (match r3 with
           | '-' :: r4 => some (true, r4)
           | '+' :: r4 => some (false, r4)
           | r4 => some (false, r4)) with
        | some (eneg, r5) =>
            let (ed, r6) := spanDigits r5
            if ed = [] ∨ r6 ≠ [] then none else some (neg, mant, fp.length, eneg, digitsVal ed)
        | none => none
    | _ => none

/-- The rational value of parsed float parts. -/
def ratOfParts : Bool × Nat × Nat × Bool × Nat → ℚ
  | (neg, mant, scale, eneg, e) =>
      let m : ℚ := (mant : ℚ) / (10 : ℚ) ^ scale
      let m := if eneg then m / (10 : ℚ) ^ e else m * (10 : ℚ) ^ e
      if neg then -m else m

/-- `pandas.to_numeric(s, errors="coerce")` on a single string. -/
def parsePyFloat (s : String) : Option ℚ := (parseFloatParts s).map ratOfParts

/-- Numeric coercion of one cell (lines 91-92):
`astype(str)` followed by the regex strip and `to_numeric(errors="coerce")`.
A missing cell stringifies to `"nan"`, which strips to `""` and fails the
parse, so missing stays missing.  The `num` and `date` branches are
unreachable in the pipeline (numeric columns hold raw strings when this
pass runs): an already-numeric cell round-trips, and a stringified
timestamp keeps an interior dash after stripping and fails the parse. -/
def coerceNumVal : Val → Val
  | Val.missing => Val.missing
  | Val.str s =>
      match parsePyFloat (stripNonNumeric s) with
      | some q => Val.num q
      | none => Val.missing
  | Val.num q => Val.num q
  | Val.date _ => Val.missing

/-- Is `y` a leap year? -/
def isLeapYear (y : Nat) : Bool := y % 4 = 0 && (y % 100 ≠ 0 || y % 400 = 0)

def daysInMonth (y m : Nat) : Nat :=
  if m = 2 then (if isLeapYear y then 29 else 28)
  else if m = 4 ∨ m = 6 ∨ m = 9 ∨ m = 11 then 30
  else 31

/-- Parse `HH:MM` or `HH:MM:SS`. -/
def parseTimePart (t : String) : Option (Nat × Nat × Nat) :=
  match splitOnChar ':' t with
  | [h, m] =>
      match strToNat? h, strToNat? m with
      | some hh, some mm => if hh < 24 ∧ mm < 60 then some (hh, mm, 0) else none
      | _, _ => none
  | [h, m, s] =>
      match strToNat? h, strToNat? m, strToNat? s with
      | some hh, some mm, some ss =>
          if hh < 24 ∧ mm < 60 ∧ ss < 60 then some (hh, mm, ss) else none
      | _, _, _ => none
  | _ => none

/-- Parse the calendar-date layouts exercised by the pipeline:
ISO `YYYY-MM-DD` and slash layouts (`MM/DD/YYYY`, or `YYYY/MM/DD` when the
first field has four digits), with calendar validation. -/
def parseDatePart (d : String) : Option (Nat × Nat × Nat) :=
  let valid := fun (y m dd : Nat) =>
    if 1 ≤ m ∧ m ≤ 12 ∧ 1 ≤ dd ∧ dd ≤ daysInMonth y m then some (y, m, dd) else none
  match splitOnChar '-' d with
  | [y, m, dd] =>
      if y.data.length = 4 then
        match strToNat? y, strToNat? m, strToNat? dd with
        | some yy, some mm, some dd2 => valid yy mm dd2
        | _, _, _ => none
      else none
  | [_] =>
      match splitOnChar '/' d with
      | [a, b, c] =>
          if a.data.length = 4 then
            match strToNat? a, strToNat? b, strToNat? c with
            | some yy, some mm, some dd2 => valid yy mm dd2
            | _, _, _ => none
          else if c.data.length = 4 then
            match strToNat? a, strToNat? b, strToNat? c with
            | some mm, some dd2, some yy => valid yy mm dd2
            | _, _, _ => none
          else none
      | _ => none
  | _ => none

/-- Model of the format-inferring string parse of
`pandas.to_datetime(errors="coerce", infer_datetime_format=True)`,
restricted to the date/time layouts named by the specification. -/
def parseDateString (s : String) : Option DateTime :=
  match (splitOnChar ' ' ⟨trimChars s.data⟩).filter (fun p => p ≠ "") with
  | [d] => (parseDatePart d).map (fun (y, m, dd) => ⟨y, m, dd, 0, 0, 0⟩)
  | [d, t] =>
      match parseDatePart d, parseTimePart t with
      | some (y, m, dd), some (hh, mi, ss) => some ⟨y, m, dd, hh, mi, ss⟩
      | _, _ => none
  | _ => none

/-- Date coercion of one cell (lines 78-81): values failing the parse become
`NaT`; a cell already holding a timestamp or `NaT` is returned unchanged
(pandas returns a datetime column as-is).  The `num` branch is unreachable:
date columns hold raw strings when this pass runs. -/
def coerceDateVal : Val → Val
  | Val.missing => Val.missing
  | Val.date d => Val.date d
  | Val.str s =>
      match parseDateString s with
      | some d => Val.date d
      | none => Val.missing
  | Val.num _ => Val.missing

/-! ## Stringification (`astype(str)` and f-string formatting) -/

/-- Zero-padded decimal renderings. -/
def pad2 (n : Nat) : String := if n < 10 then "0" ++ toString n else toString n

def pad4 (n : Nat) : String :=
  if n < 10 then "000" ++ toString n
  else if n < 100 then "00" ++ toString n
  else if n < 1000 then "0" ++ toString n
  else toString n

/-- `str(pandas.Timestamp(...))`, e.g. `"2023-01-05 00:00:00"`. -/
def DateTime.toPyString (d : DateTime) : String :=
  pad4 d.year ++ "-" ++ pad2 d.month ++ "-" ++ pad2 d.day ++ " " ++
    pad2 d.hour ++ ":" ++ pad2 d.minute ++ ":" ++ pad2 d.second

/-- Rendering of a float cell.  Unreachable in the pipeline: float cells never
reach a string context in the script, so any total rendering is adequate. -/
def pyFloatStr (q : ℚ) : String := toString q

/-- `astype(str)` on an object-dtype column: `NaN` stringifies to `"nan"`. -/
def pyStrObj : Val → String
  | Val.missing => "nan"
  | Val.str s => s
  | Val.num q => pyFloatStr q
  | Val.date d => d.toPyString

/-- `astype(str)` on a datetime64 column: `NaT` stringifies to `"NaT"`. -/
def pyStrDateCol : Val → String
  | Val.missing => "NaT"
  | Val.date d => d.toPyString
  | Val.str s => s
  | Val.num q => pyFloatStr q

/-- The f-string fragment `f"{x or ''}"` applied to a raw cell: `NaN` is a
truthy float and formats as `"nan"`; the empty string and `None` format as
`""`; any other string formats as itself. -/
def pyOrEmptyStr : Val → String
  | Val.missing => "nan"
  | Val.str s => s
  | Val.num q => if q = 0 then "" else pyFloatStr q
  | Val.date d => d.toPyString

/-! ## Key Deriver (`make_account_id`, lines 61-64, and lines 101-107) -/

/-- `make_account_id` on already-formatted string arguments.  On strings the
guard `x or ""` is the identity (`"" or ""` is `""`), so the base string is
the plain `"|"`-join; the digest prefix is the first 12 hex characters. -/
def make_account_id (customer_id account_type open_date : String) : String :=
  let base := customer_id ++ "|" ++ account_type ++ "|" ++ open_date
  "ACC_" ++ strTake (sha1Hex (strBytes base)) 12

/-- The per-row derived key: mirrors
`df.apply(lambda r: make_account_id(r["__customer_id_str"], ...), axis=1)`
together with the `__customer_id_str` / `__account_open_date_str` helper
columns of lines 101-102.  The customer id is `astype(str)`-formatted; the
open date is the `astype(str)` form of the coerced datetime column when that
column resolved and `""` otherwise; the account type is the raw cell pushed
through `f"{... or ''}"` when its column resolved and `""` otherwise. -/
def accountIdOfRow (cols : List String) (custCol : String)
    (acctTypeCol openDateCol : Option String) (row : List Val) : String :=
  let custS := pyStrObj (lookupVal cols row custCol)
  let dateS :=
    match openDateCol with
    | some a => pyStrDateCol (lookupVal cols row a)
    | none => ""
  let acctS :=
    match acctTypeCol with
    | some a => pyOrEmptyStr (lookupVal cols row a)
    | none => ""
  make_account_id custS acctS dateS

/-! ## Table operations -/

/-- Update the (first) column named `a` in place (`df[a] = f(df[a])`). -/
def coerceCol (f : Val → Val) (a : String) (df : Table) : Table :=
  match colIdx df.cols a with
  | some i => { df with rows := df.rows.map (updateAt f i) }
  | none => df

/-- One coercion step: resolve `target` against the header snapshot `cols0`
and coerce the resolved column, skipping unresolved targets (`if actual:`). -/
def coerceResolved (f : Val → Val) (cols0 : List String) (target : String) (df : Table) : Table :=
  match find_col cols0 target with
  | some a => coerceCol f a df
  | none => df

/-- The date columns of lines 74-77. -/
def date_cols : List String :=
  ["Date Of Account Opening", "Last Transaction Date", "Transaction Date",
   "Approval/Rejection Date", "Payment Due Date", "Last Credit Card Payment Date",
   "Feedback Date"]

/-- The numeric columns of lines 84-87. -/
def numeric_cols : List String :=
  ["Account Balance", "Transaction Amount", "Account Balance After Transaction",
   "Loan Amount", "Interest Rate", "Credit Limit", "Credit Card Balance",
   "Minimum Payment Due", "Rewards Points"]

/-- One full coercion loop over a target list. -/
def coercePass (f : Val → Val) (cols0 : List String) (targets : List String) (df : Table) :
    Table :=
  targets.foldl (fun d t => coerceResolved f cols0 t d) df

/-- Both coercion passes (lines 74-92), resolving against the header snapshot. -/
def coercePasses (df : Table) : Table :=
  coercePass coerceNumVal df.cols numeric_cols (coercePass coerceDateVal df.cols date_cols df)

/-- Assign a per-row computed column (`df[name] = df.apply(g, axis=1)`):
overwrite the column in place when the name exists, else append it. -/
def setColByRow (df : Table) (name : String) (g : List Val → Val) : Table :=
  match colIdx df.cols name with
  | some i => { df with rows := df.rows.map (fun r => updateAt (fun _ => g r) i r) }
  | none => { cols := df.cols ++ [name], rows := df.rows.map (fun r => r ++ [g r]) }

/-- Column projection `df[sel]` (every selected label is present in use). -/
def project (df : Table) (sel : List String) : Table :=
  { cols := sel, rows := df.rows.map (fun r => sel.map (lookupVal df.cols r)) }

/-- `drop_duplicates(keep="first")` keyed by `f`: keep a row exactly when its
key has not been seen before.  With `f = id` this is `subset=None` (all
columns); note pandas treats `NaN` as equal to `NaN` here, as does `Val`
equality. -/
def dedupByAux {α κ : Type} [DecidableEq κ] (f : α → κ) : List κ → List α → List α
  | _, [] => []
  | seen, x :: xs =>
      if f x ∈ seen then dedupByAux f seen xs
      else x :: dedupByAux f (f x :: seen) xs

def dedupBy {α κ : Type} [DecidableEq κ] (f : α → κ) (l : List α) : List α :=
  dedupByAux f [] l

/-- Build a rename map from optional actual names (the `if c(...)` guards). -/
def renameEntries (l : List (Option String × String)) : List (String × String) :=
  l.filterMap (fun p => p.1.map (fun a => (a, p.2)))

/-- Apply a rename map to one header. -/
def renameApply (m : List (String × String)) (c : String) : String :=
  match m.find? (fun p => p.1 == c) with
  | some p => p.2
  | none => c

/-- `df.rename(columns=m)`: headers change, rows are untouched. -/
def applyRename (m : List (String × String)) (t : Table) : Table :=
  { t with cols := t.cols.map (renameApply m) }

/-- The selected columns of an option list, in order (`[col for col in ... if col is not None]`). -/
def optCols (l : List (Option String)) : List String := l.filterMap id

/-! ## Table Splitter (lines 109-257) -/

/-- The projected customer columns (line 110-112). -/
def customersColsOf (cols0 : List String) (custCol : String) : List String :=
  optCols [some custCol, find_col cols0 "First Name", find_col cols0 "Last Name",
    find_col cols0 "Age", find_col cols0 "Gender", find_col cols0 "Address",
    find_col cols0 "City", find_col cols0 "Contact Number", find_col cols0 "Email"]

/-- Customers table (lines 110-114). -/
def customersTable (cols0 : List String) (custCol : String) (df : Table) : Table :=
  let customersCols := customersColsOf cols0 custCol
  let t := project df customersCols
  let t := { t with rows := dedupBy (fun r => lookupVal t.cols r custCol) t.rows }
  applyRename [(custCol, "CustomerID")] t

/-- The projected account columns (lines 117-118). -/
def accountsColsOf (cols0 : List String) (custCol : String) : List String :=
  optCols [some "AccountID", some custCol, find_col cols0 "Account Type",
    find_col cols0 "Account Balance", find_col cols0 "Date Of Account Opening",
    find_col cols0 "Last Transaction Date", find_col cols0 "Branch ID"]

/-- Accounts table (lines 116-133). -/
def accountsTable (cols0 : List String) (custCol : String) (df : Table) : Table :=
  let c := fun n => find_col cols0 n
  let t := project df (accountsColsOf cols0 custCol)
  let t := { t with rows := dedupBy (fun r => lookupVal t.cols r "AccountID") t.rows }
  applyRename (renameEntries [(some custCol, "CustomerID"), (c "Account Type", "AccountType"),
    (c "Date Of Account Opening", "DateOfAccountOpening"),
    (c "Last Transaction Date", "LastTransactionDate"),
    (c "Account Balance", "AccountBalance"), (c "Branch ID", "BranchID")]) t

/-- Transactions table (lines 135-158): projected, renamed, then deduplicated
on `TransactionID` only when that column is present. -/
def transactionsColsOf (cols0 : List String) : List String :=
  optCols [find_col cols0 "TransactionID", some "AccountID", find_col cols0 "Transaction Date",
    find_col cols0 "Transaction Type", find_col cols0 "Transaction Amount",
    find_col cols0 "Account Balance After Transaction", find_col cols0 "Branch ID"]

/-- The transactions rename map (lines 143-156). -/
def txRenames (cols0 : List String) : List (String × String) :=
  renameEntries [(find_col cols0 "TransactionID", "TransactionID"),
    (find_col cols0 "Transaction Date", "TransactionDate"),
    (find_col cols0 "Transaction Type", "TransactionType"),
    (find_col cols0 "Transaction Amount", "TransactionAmount"),
    (find_col cols0 "Account Balance After Transaction", "AccountBalanceAfterTransaction"),
    (find_col cols0 "Branch ID", "BranchID")]

def transactionsTable (cols0 : List String) (df : Table) : Table :=
  let t := project df (transactionsColsOf cols0)
  let t := applyRename (txRenames cols0) t
  if "TransactionID" ∈ t.cols then
    { t with rows := dedupBy (fun r => lookupVal t.cols r "TransactionID") t.rows }
  else t

/-- Loans table (lines 160-187): `drop_duplicates(subset=[loanid] if loanid else None)` -
full-row deduplication when the Loan ID column is absent. -/
def loansColsOf (cols0 : List String) (custCol : String) : List String :=
  optCols [find_col cols0 "Loan ID", some custCol, find_col cols0 "Loan Amount",
    find_col cols0 "Loan Type", find_col cols0 "Interest Rate", find_col cols0 "Loan Term",
    find_col cols0 "Approval/Rejection Date", find_col cols0 "Loan Status",
    find_col cols0 "Branch ID"]

def loansTable (cols0 : List String) (custCol : String) (df : Table) : Table :=
  let c := fun n => find_col cols0 n
  let loanidCol := c "Loan ID"
  let t := project df (loansColsOf cols0 custCol)
  let t := { t with rows :=
    match loanidCol with
    | some k => dedupBy (fun r => lookupVal t.cols r k) t.rows
    | none => dedupBy id t.rows }
  applyRename (renameEntries [(loanidCol, "LoanID"), (some custCol, "CustomerID"),
    (c "Loan Amount", "LoanAmount"), (c "Loan Type", "LoanType"),
    (c "Interest Rate", "InterestRate"), (c "Loan Term", "LoanTerm"),
    (c "Approval/Rejection Date", "ApprovalRejectionDate"), (c "Loan Status", "LoanStatus"),
    (c "Branch ID", "BranchID")]) t

/-- Cards table (lines 189-217). -/
def cardsColsOf (cols0 : List String) (custCol : String) : List String :=
  optCols [find_col cols0 "CardID", some custCol, find_col cols0 "Card Type",
    find_col cols0 "Credit Limit", find_col cols0 "Credit Card Balance",
    find_col cols0 "Minimum Payment Due", find_col cols0 "Payment Due Date",
    find_col cols0 "Last Credit Card Payment Date", find_col cols0 "Rewards Points"]

def cardsTable (cols0 : List String) (custCol : String) (df : Table) : Table :=
  let c := fun n => find_col cols0 n
  let cardidCol := c "CardID"
  let t := project df (cardsColsOf cols0 custCol)
  let t := { t with rows :=
    match cardidCol with
    | some k => dedupBy (fun r => lookupVal t.cols r k) t.rows
    | none => dedupBy id t.rows }
  applyRename (renameEntries [(cardidCol, "CardID"), (some custCol, "CustomerID"),
    (c "Card Type", "CardType"), (c "Credit Limit", "CreditLimit"),
    (c "Credit Card Balance", "CreditCardBalance"),
    (c "Minimum Payment Due", "MinimumPaymentDue"), (c "Payment Due Date", "PaymentDueDate"),
    (c "Last Credit Card Payment Date", "LastCreditCardPaymentDate"),
    (c "Rewards Points", "RewardsPoints")]) t

/-- Feedback table (lines 219-240). -/
def feedbackColsOf (cols0 : List String) (custCol : String) : List String :=
  optCols [find_col cols0 "Feedback ID", some custCol, find_col cols0 "Feedback Date",
    find_col cols0 "Feedback Type", find_col cols0 "Resolution Status",
    find_col cols0 "Resolution Date"]

def feedbackTable (cols0 : List String) (custCol : String) (df : Table) : Table :=
  let c := fun n => find_col cols0 n
  let feedbackidCol := c "Feedback ID"
  let t := project df (feedbackColsOf cols0 custCol)
  let t := { t with rows :=
    match feedbackidCol with
    | some k => dedupBy (fun r => lookupVal t.cols r k) t.rows
    | none => dedupBy id t.rows }
  applyRename (renameEntries [(feedbackidCol, "FeedbackID"), (some custCol, "CustomerID"),
    (c "Feedback Date", "FeedbackDate"), (c "Feedback Type", "FeedbackType"),
    (c "Resolution Status", "ResolutionStatus"), (c "Resolution Date", "ResolutionDate")]) t

/-- Branches table (lines 242-248). -/
def branchesTable (cols0 : List String) (df : Table) : Table :=
  match find_col cols0 "Branch ID" with
  | some b =>
      let t := project df [b]
      applyRename [(b, "BranchID")] { t with rows := dedupBy id t.rows }
  | none => { cols := ["BranchID"], rows := [] }

/-- Anomalies table (lines 250-257): rows with a missing anomaly value are
dropped, then full-row duplicates are removed; with no anomaly column the
result is the empty two-column table. -/
def anomaliesTable (cols0 : List String) (custCol : String) (df : Table) : Table :=
  match find_col cols0 "Anomaly" with
  | some a =>
      let t := project df [custCol, a]
      let rows := t.rows.filter (fun r => r.getD 1 Val.missing ≠ Val.missing)
      applyRename [(custCol, "CustomerID"), (a, "Anomaly")] { t with rows := dedupBy id rows }
  | none => { cols := ["CustomerID", "Anomaly"], rows := [] }

/-! ## Dictionary Builder (lines 259-270) -/

/-- One row of the static data dictionary; `foreignKeys` is `none` exactly for
the dict entries without a `"ForeignKeys"` key. -/
structure DDRow where
  table : String
  primaryKey : String
  foreignKeys : Option String
  notes : String
deriving DecidableEq, Repr

/-- The fixed `dd_rows` list. -/
def dd_rows : List DDRow :=
  [⟨"Customers", "CustomerID", none, "Customer master data"⟩,
   ⟨"Accounts", "AccountID", some "CustomerID", "One or more accounts per customer"⟩,
   ⟨"Transactions", "TransactionID (may be null)", some "AccountID, BranchID",
     "Transaction records"⟩,
   ⟨"Loans", "LoanID", some "CustomerID, BranchID", "Loan records if present"⟩,
   ⟨"Cards", "CardID", some "CustomerID", "Credit card records"⟩,
   ⟨"Feedback", "FeedbackID", some "CustomerID", "Customer feedback"⟩,
   ⟨"Branches", "BranchID", none, "Branch identifiers"⟩,
   ⟨"Anomalies", "", some "CustomerID", "Rows flagged as anomalies (if any)"⟩]

/-! ## The whole transform (`build_relational_sheets`) -/

/-- The nine output tables. -/
structure Sheets where
  customers : Table
  accounts : Table
  transactions : Table
  loans : Table
  cards : Table
  feedback : Table
  branches : Table
  anomalies : Table
  dataDictionary : List DDRow
deriving DecidableEq, Repr

/-- The data frame after both coercion passes and the `AccountID` assignment
(lines 74-107), given the resolved customer column. -/
def df3Of (df : Table) (custCol : String) : Table :=
  let cols0 := df.cols
  let df2 := coercePasses df
  setColByRow df2 "AccountID"
    (fun r => Val.str (accountIdOfRow df2.cols custCol (find_col cols0 "Account Type")
      (find_col cols0 "Date Of Account Opening") r))

/-- All nine sheets of a successful run. -/
def sheetsOf (df : Table) (custCol : String) : Sheets :=
  let cols0 := df.cols
  let df3 := df3Of df custCol
  { customers := customersTable cols0 custCol df3
    accounts := accountsTable cols0 custCol df3
    transactions := transactionsTable cols0 df3
    loans := loansTable cols0 custCol df3
    cards := cardsTable cols0 custCol df3
    feedback := feedbackTable cols0 custCol df3
    branches := branchesTable cols0 df3
    anomalies := anomaliesTable cols0 custCol df3
    dataDictionary := dd_rows }

/-- `build_relational_sheets` (lines 67-286).  The coercion passes of the
source run before the mandatory-column check; both orders produce the same
observable result because the error case discards the mutated frame. -/
def build_relational_sheets (df : Table) : Except String Sheets :=
  match find_col df.cols "Customer ID" with
  | none =>
      Except.error
        "Input CSV does not contain a \x27Customer ID\x27 column (case-insensitive match)."
  | some custCol => Except.ok (sheetsOf df custCol)

/-- `main` (lines 296-338), abstracting the I/O collaborators: exit 1 when the
input is absent, 2 when the CSV cannot be read, 3 when the transform raises,
4 when writing fails, 0 on success. -/
def mainExitCode (inputExists : Bool) (readResult : Option Table) (writeOk : Bool) : Nat :=
  if ¬ inputExists then 1
  else
    match readResult with
    | none => 2
    | some df =>
        match build_relational_sheets df with
        | Except.error _ => 3
        | Except.ok _ => if writeOk then 0 else 4

/-! ## Concrete inputs used by witnesses and counterexamples -/

/-- The one-row input used to exhibit the missing-AccountType behaviour. -/
def missingAcctInput : Table :=
  { cols := ["Customer ID", "Account Type"], rows := [[Val.str "A", Val.missing]] }

/-- The duplicated-rows input used against the retain-duplicates reading. -/
def dupRowsInput : Table :=
  { cols := ["Customer ID"], rows := [[Val.str "A"], [Val.str "A"]] }

/-- The two-row duplicate-customer input used in witnesses. -/
def dupCustInput : Table :=
  { cols := ["Customer ID", "First Name"],
    rows := [[Val.str "A", Val.str "X"], [Val.str "A", Val.str "Y"]] }

/-- The two-row all-missing-key input used in witnesses. -/
def missingKeysInput : Table :=
  { cols := ["Customer ID", "Branch ID"],
    rows := [[Val.missing, Val.missing], [Val.missing, Val.missing]] }

/-- The anomalies test input: one duplicated flagged pair, one missing flag. -/
def anomaliesInput : Table :=
  { cols := ["Customer ID", "Anomaly"],
    rows := [[Val.str "A", Val.str "Suspicious"], [Val.str "A", Val.str "Suspicious"],
             [Val.str "B", Val.missing]] }

end ETL

namespace ETL

/-! ## Helper lemmas -/

/-- The regex strip keeps exactly the kept-class characters, in order. -/
theorem stripChars_eq_filter (l : List Char) : stripChars l = l.filter isNumericChar := by
  induction l with
  | nil => rfl
  | cons c cs ih =>
      by_cases h : isNumericChar c = true <;> simp [stripChars, List.filter, h, ih]

/-- Updating a position twice composes the updates. -/
theorem updateAt_updateAt (f g : Val → Val) (i : Nat) (r : List Val) :
    updateAt f i (updateAt g i r) = updateAt (fun v => f (g v)) i r := by
  induction r generalizing i with
  | nil => cases i <;> rfl
  | cons v vs ih => cases i <;> simp [updateAt, ih]

/-- Success and failure of the transform, by cases on the mandatory column. -/
theorem build_ok_iff (df : Table) (s : Sheets) :
    build_relational_sheets df = Except.ok s ↔
      ∃ c, find_col df.cols "Customer ID" = some c ∧ s = sheetsOf df c := by
  unfold build_relational_sheets
  cases h : find_col df.cols "Customer ID" <;> simp [h, eq_comm]

end ETL

namespace ETL

set_option maxRecDepth 40000 in
/-- C1 counterexample: a row whose `Account Type` cell is the missing marker
does NOT get the AccountID of the empty-string triple.  The missing cell is
a truthy `NaN` float, so `f"{... or ''}"` renders it as `"nan"` and the
digest is taken of `"A|nan|"`, which differs from the digest of `"A||"`. -/
theorem account_id_missing_value_counterexample :
    (build_relational_sheets missingAcctInput).toOption.map
        (fun s => s.accounts.rows.map (fun r => r.getD 0 Val.missing))
      = some [Val.str (make_account_id "A" "nan" "")] ∧
    make_account_id "A" "nan" "" ≠ make_account_id "A" "" "" := by
  constructor <;> decide

set_option maxRecDepth 40000 in
/-- C2 counterexample: with no `Loan ID` column the Loans table is built with
`drop_duplicates(subset=None)`, so the two identical projected rows collapse
to one — duplicates are NOT retained (Transactions, by contrast, keeps both). -/
theorem loans_dedup_without_key_counterexample :
    (build_relational_sheets dupRowsInput).toOption.map
        (fun s => (s.loans.rows.length, s.transactions.rows.length))
      = some (1, 2) := by decide

end ETL

namespace ETL

/-- C3: an input whose headers contain no case/whitespace-insensitive match
for "Customer ID" makes the transform raise (no sheets are produced) and the
process exit with the transform-failure status 3; whenever the customer
column does resolve, the transform succeeds whatever other columns are
absent, so no other logical column can cause an error. -/
theorem mandatory_customer_column (df : Table) :
    (find_col df.cols "Customer ID" = none →
      build_relational_sheets df =
        Except.error
          "Input CSV does not contain a \x27Customer ID\x27 column (case-insensitive match)." ∧
      mainExitCode true (some df) true = 3) ∧
    (∀ c, find_col df.cols "Customer ID" = some c →
      build_relational_sheets df = Except.ok (sheetsOf df c) ∧
      mainExitCode true (some df) true = 0) := by
  constructor
  · intro h
    simp [build_relational_sheets, mainExitCode, h]
  · intro c h
    simp [build_relational_sheets, mainExitCode, h]

/-- Witness for C3 at a concrete header list lacking the customer column. -/
theorem mandatory_customer_column_witness :
    find_col (["Name", "Anomaly"] : List String) "Customer ID" = none ∧
    (build_relational_sheets { cols := ["Name", "Anomaly"], rows := [[Val.str "x", Val.str "y"]] } =
      Except.error
        "Input CSV does not contain a \x27Customer ID\x27 column (case-insensitive match)." ∧
    mainExitCode true (some { cols := ["Name", "Anomaly"], rows := [[Val.str "x", Val.str "y"]] }) true = 3) :=
  ⟨by decide,
    (mandatory_customer_column { cols := ["Name", "Anomaly"], rows := [[Val.str "x", Val.str "y"]] }).1
      (by decide)⟩

/-- C9: the data dictionary of every successful run is the fixed 8-row list —
one row per output table other than itself — independent of the input data,
and its construction cannot fail (it is a constant). -/
theorem data_dictionary_constant (df : Table) (s : Sheets)
    (h : build_relational_sheets df = Except.ok s) :
    s.dataDictionary = dd_rows ∧ dd_rows.length = 8 ∧
    dd_rows.map DDRow.table =
      ["Customers", "Accounts", "Transactions", "Loans", "Cards", "Feedback",
       "Branches", "Anomalies"] := by
  obtain ⟨c, hc, rfl⟩ := (build_ok_iff df s).1 h
  exact ⟨rfl, by decide, by decide⟩

/-- Witness for C9 at a concrete empty-bodied input. -/
theorem data_dictionary_constant_witness :
    build_relational_sheets { cols := ["Customer ID"], rows := [] } =
      Except.ok (sheetsOf { cols := ["Customer ID"], rows := [] } "Customer ID") ∧
    (sheetsOf { cols := ["Customer ID"], rows := [] } "Customer ID").dataDictionary = dd_rows :=
  ⟨rfl,
    (data_dictionary_constant { cols := ["Customer ID"], rows := [] }
      (sheetsOf { cols := ["Customer ID"], rows := [] } "Customer ID") rfl).1⟩

end ETL

namespace ETL

/-- C5: numeric coercion strips every character outside the kept class
(digit, decimal point, minus, `e`/`E`) and parses the remainder as a float;
a failed parse — including the empty remainder — yields the missing marker
and never an error (the coercion is a total function).  `"$1,234.56"`
parses to `1234.56`; `"abc"` and `""` become missing; a missing cell stays
missing. -/
theorem numeric_coercion_spec :
    (∀ s : String, (stripNonNumeric s).data = s.data.filter isNumericChar) ∧
    (∀ s, parsePyFloat (stripNonNumeric s) = none → coerceNumVal (Val.str s) = Val.missing) ∧
    (∀ s q, parsePyFloat (stripNonNumeric s) = some q → coerceNumVal (Val.str s) = Val.num q) ∧
    coerceNumVal (Val.str "$1,234.56") = Val.num (1234.56 : ℚ) ∧
    coerceNumVal (Val.str "abc") = Val.missing ∧
    coerceNumVal (Val.str "") = Val.missing ∧
    coerceNumVal Val.missing = Val.missing := by
  refine ⟨fun s => stripChars_eq_filter s.data, fun s h => ?_, fun s q h => ?_, ?_, by decide,
    by decide, rfl⟩
  · simp [coerceNumVal, h]
  · simp [coerceNumVal, h]
  · have h : parseFloatParts (stripNonNumeric "$1,234.56") = some (false, 123456, 2, false, 0) := by
      decide
    simp only [coerceNumVal, parsePyFloat, h, Option.map_some, Val.num.injEq]
    norm_num [ratOfParts]

/-- Witness for C5: the failure case applied at the concrete string "abc". -/
theorem numeric_coercion_spec_witness :
    parsePyFloat (stripNonNumeric "abc") = none ∧ coerceNumVal (Val.str "abc") = Val.missing :=
  ⟨by decide, numeric_coercion_spec.2.1 "abc" (by decide)⟩

/-- C6: date coercion is idempotent — per cell and per column, re-running the
coercion on an already-coerced column changes nothing — and total: every
string that fails the parse becomes the explicit missing marker rather than
raising; the fixed list has the 7 date columns. -/
theorem date_coercion_idempotent_total :
    date_cols.length = 7 ∧
    (∀ v, coerceDateVal (coerceDateVal v) = coerceDateVal v) ∧
    (∀ df a, coerceCol coerceDateVal a (coerceCol coerceDateVal a df) =
      coerceCol coerceDateVal a df) ∧
    (∀ s, parseDateString s = none → coerceDateVal (Val.str s) = Val.missing) := by
  have hidem : ∀ v, coerceDateVal (coerceDateVal v) = coerceDateVal v := by
    intro v
    cases v with
    | str s => cases h : parseDateString s <;> simp [coerceDateVal, h]
    | _ => rfl
  refine ⟨rfl, hidem, fun df a => ?_, fun s h => by simp [coerceDateVal, h]⟩
  cases h : colIdx df.cols a with
  | none => simp [coerceCol, h]
  | some i =>
      simp only [coerceCol, h, List.map_map]
      have hcomp : (updateAt coerceDateVal i ∘ updateAt coerceDateVal i) =
          updateAt coerceDateVal i := by
        funext r
        show updateAt coerceDateVal i (updateAt coerceDateVal i r) = updateAt coerceDateVal i r
        rw [updateAt_updateAt]
        congr 1
        funext v
        exact hidem v
      rw [hcomp]

/-- Witness for C6: the failure case applied at a concrete unparseable string. -/
theorem date_coercion_idempotent_total_witness :
    parseDateString "garbage" = none ∧ coerceDateVal (Val.str "garbage") = Val.missing :=
  ⟨by decide, date_coercion_idempotent_total.2.2.2 "garbage" (by decide)⟩

end ETL

namespace ETL

/-- C4: the resolver returns the first header (in column order) whose trimmed
lower-cased form equals that of the target, and returns the `none` marker —
never an error, being a total function — exactly when no header matches; in
particular under duplicate matching headers the first by position is always
the result. -/
theorem find_col_spec (cols : List String) (target : String) :
    (find_col cols target = none ↔ ∀ c ∈ cols, normKey c ≠ normKey target) ∧
    (∀ a, find_col cols target = some a →
      normKey a = normKey target ∧
      ∃ pre post, cols = pre ++ a :: post ∧ ∀ c ∈ pre, normKey c ≠ normKey target) := by
  induction cols with
  | nil => simp [find_col]
  | cons c0 cs ih =>
      by_cases h : normKey c0 = normKey target
      · constructor
        · constructor
          · intro hn
            exact absurd hn (by simp [find_col, List.find?_cons_of_pos, h])
          · intro hall
            exact absurd h (hall c0 (List.mem_cons_self c0 cs))
        · intro a ha
          have ha0 : a = c0 := by
            have := List.find?_cons_of_pos (p := fun c => normKey c == normKey target)
              (l := cs) (by simpa using h)
            simp only [find_col] at ha
            rw [this] at ha
            exact (Option.some.injEq _ _ ▸ ha).symm
          subst ha0
          exact ⟨h, [], cs, rfl, by simp⟩
      · have hstep : find_col (c0 :: cs) target = find_col cs target := by
          simp only [find_col]
          exact List.find?_cons_of_neg _ (by simpa using h)
        constructor
        · rw [hstep, ih.1]
          constructor
          · intro hall c hc
            rcases List.mem_cons.1 hc with rfl | hc
            · exact h
            · exact hall c hc
          · intro hall c hc
            exact hall c (List.mem_cons_of_mem _ hc)
        · intro a ha
          obtain ⟨hk, pre, post, hcols, hpre⟩ := ih.2 a (hstep ▸ ha)
          refine ⟨hk, c0 :: pre, post, by rw [hcols]; rfl, ?_⟩
          intro c hc
          rcases List.mem_cons.1 hc with rfl | hc
          · exact h
          · exact hpre c hc

/-- Witness for C4: duplicate case-insensitive headers resolve to the first. -/
theorem find_col_spec_witness :
    find_col ["Customer ID", " customer id "] "Customer ID" = some "Customer ID" ∧
    (normKey "Customer ID" = normKey "Customer ID" ∧
      ∃ pre post, (["Customer ID", " customer id "] : List String) = pre ++ "Customer ID" :: post ∧
        ∀ c ∈ pre, normKey c ≠ normKey "Customer ID") :=
  ⟨by decide,
    (find_col_spec ["Customer ID", " customer id "] "Customer ID").2 "Customer ID" (by decide)⟩

end ETL

namespace ETL

/-! ## Deduplication lemmas -/

/-- Members of the deduplicated list come from the input. -/
theorem mem_of_mem_dedupByAux {α κ : Type} [DecidableEq κ] (f : α → κ)
    (seen : List κ) (l : List α) (x : α) (h : x ∈ dedupByAux f seen l) : x ∈ l := by
  induction l generalizing seen with
  | nil => simp [dedupByAux] at h
  | cons y ys ih =>
      by_cases hy : f y ∈ seen
      · simp only [dedupByAux, if_pos hy] at h
        exact List.mem_cons_of_mem _ (ih _ h)
      · simp only [dedupByAux, if_neg hy, List.mem_cons] at h
        rcases h with rfl | h
        · exact List.mem_cons_self _ _
        · exact List.mem_cons_of_mem _ (ih _ h)

theorem mem_of_mem_dedupBy {α κ : Type} [DecidableEq κ] (f : α → κ)
    (l : List α) (x : α) (h : x ∈ dedupBy f l) : x ∈ l :=
  mem_of_mem_dedupByAux f [] l x h

/-- The first-occurrence characterization: among the rows with any fixed key,
exactly the first input occurrence survives deduplication. -/
theorem dedupByAux_filter_key {α κ : Type} [DecidableEq κ] (f : α → κ)
    (k : κ) (l : List α) (seen : List κ) :
    (dedupByAux f seen l).filter (fun x => f x == k) =
      if k ∈ seen then [] else (l.filter (fun x => f x == k)).take 1 := by
  induction l generalizing seen with
  | nil => simp [dedupByAux]
  | cons y ys ih =>
      by_cases hy : f y ∈ seen
      · rw [dedupByAux, if_pos hy, ih]
        by_cases hk : k ∈ seen
        · simp [hk]
        · have hfyk : f y ≠ k := fun h => hk (h ▸ hy)
          simp [hk, List.filter_cons, hfyk]
      · rw [dedupByAux, if_neg hy]
        by_cases hfy : f y = k
        · subst hfy
          simp only [List.filter_cons, ih]
          simp [hy]
        · simp only [List.filter_cons, ih]
          by_cases hk : k ∈ seen
          · simp [hk, hfy]
          · have hks : k ∉ f y :: seen := by
              simp only [List.mem_cons, not_or]
              exact ⟨fun h => hfy h.symm, hk⟩
            simp [hk, hks, hfy]

theorem dedupBy_filter_key {α κ : Type} [DecidableEq κ] (f : α → κ) (k : κ) (l : List α) :
    (dedupBy f l).filter (fun x => f x == k) = (l.filter (fun x => f x == k)).take 1 := by
  have := dedupByAux_filter_key f k l []
  simpa [dedupBy] using this

/-- The keys of the deduplicated list are distinct and avoid the seen set. -/
theorem dedupByAux_keys_nodup {α κ : Type} [DecidableEq κ] (f : α → κ)
    (l : List α) (seen : List κ) :
    ((dedupByAux f seen l).map f).Nodup ∧ ∀ x ∈ dedupByAux f seen l, f x ∉ seen := by
  induction l generalizing seen with
  | nil => simp [dedupByAux]
  | cons y ys ih =>
      by_cases hy : f y ∈ seen
      · rw [dedupByAux, if_pos hy]
        exact ih seen
      · rw [dedupByAux, if_neg hy]
        obtain ⟨hnd, hout⟩ := ih (f y :: seen)
        refine ⟨?_, ?_⟩
        · simp only [List.map_cons, List.nodup_cons]
          refine ⟨?_, hnd⟩
          intro hmem
          obtain ⟨x, hx, hfx⟩ := List.mem_map.1 hmem
          exact hout x hx (hfx ▸ List.mem_cons_self _ _)
        · intro x hx
          rcases List.mem_cons.1 hx with rfl | hx
          · exact hy
          · exact fun hs => hout x hx (List.mem_cons_of_mem _ hs)

theorem dedupBy_keys_nodup {α κ : Type} [DecidableEq κ] (f : α → κ) (l : List α) :
    ((dedupBy f l).map f).Nodup :=
  (dedupByAux_keys_nodup f l []).1

theorem dedupBy_id_nodup {α : Type} [DecidableEq α] (l : List α) : (dedupBy id l).Nodup := by
  have := dedupBy_keys_nodup (id : α → α) l
  simpa using this

/-- Full-row deduplication keeps exactly the distinct elements. -/
theorem mem_dedupByAux_id {α : Type} [DecidableEq α] (l : List α) (seen : List α) (x : α) :
    x ∈ dedupByAux (id : α → α) seen l ↔ x ∈ l ∧ x ∉ seen := by
  induction l generalizing seen with
  | nil => simp [dedupByAux]
  | cons y ys ih =>
      rw [dedupByAux]
      simp only [id_eq]
      by_cases hy : y ∈ seen
      · rw [if_pos hy, ih]
        simp only [List.mem_cons]
        constructor
        · rintro ⟨h1, h2⟩
          exact ⟨Or.inr h1, h2⟩
        · rintro ⟨rfl | h1, h2⟩
          · exact absurd hy h2
          · exact ⟨h1, h2⟩
      · rw [if_neg hy]
        simp only [List.mem_cons, ih, id_eq, not_or]
        constructor
        · rintro (rfl | ⟨h1, h2⟩)
          · exact ⟨Or.inl rfl, hy⟩
          · exact ⟨Or.inr h1, h2.2⟩
        · rintro ⟨rfl | h1, h2⟩
          · exact Or.inl rfl
          · by_cases hxy : x = y
            · exact Or.inl hxy
            · exact Or.inr ⟨h1, hxy, h2⟩

theorem mem_dedupBy_id {α : Type} [DecidableEq α] (l : List α) (x : α) :
    x ∈ dedupBy id l ↔ x ∈ l := by
  simp [dedupBy, mem_dedupByAux_id]

/-- A duplicate-free list whose members are all equal has at most one member. -/
theorem length_le_one_of_nodup_const {α : Type} (l : List α) (a : α)
    (hnd : l.Nodup) (hall : ∀ x ∈ l, x = a) : l.length ≤ 1 := by
  match l, hnd with
  | [], _ => simp
  | [x], _ => simp
  | x :: y :: rest, hnd =>
      exfalso
      have hx : x = a := hall x (List.mem_cons_self _ _)
      have hy : y = a := hall y (List.mem_cons_of_mem _ (List.mem_cons_self _ _))
      have : x ≠ y := by
        have := List.nodup_cons.1 hnd
        intro h
        exact this.1 (h ▸ List.mem_cons_self _ _)
      exact this (hx.trans hy.symm)

end ETL

namespace ETL

/-- Looking up the head column reads position 0. -/
theorem lookupVal_cons_self (c : String) (cs : List String) (r : List Val) :
    lookupVal (c :: cs) r c = r.getD 0 Val.missing := by
  simp [lookupVal, colIdx]

/-- The customers rows are the projection deduplicated on position 0 (the
customer column is first in the projected schema; renaming keeps rows). -/
theorem customersTable_rows (cols0 : List String) (custCol : String) (df : Table) :
    (customersTable cols0 custCol df).rows =
      dedupBy (fun r => r.getD 0 Val.missing) (project df (customersColsOf cols0 custCol)).rows := by
  have hrest : customersColsOf cols0 custCol =
      custCol :: optCols [find_col cols0 "First Name", find_col cols0 "Last Name",
        find_col cols0 "Age", find_col cols0 "Gender", find_col cols0 "Address",
        find_col cols0 "City", find_col cols0 "Contact Number", find_col cols0 "Email"] := by
    simp [customersColsOf, optCols]
  have h0 : (customersTable cols0 custCol df).rows =
      dedupBy (fun r => lookupVal (customersColsOf cols0 custCol) r custCol)
        (project df (customersColsOf cols0 custCol)).rows := rfl
  rw [h0]
  congr 1
  funext r
  rw [hrest, lookupVal_cons_self]

/-- The accounts rows are the projection deduplicated on position 0 (the
literal `AccountID` column is first in the projected schema). -/
theorem accountsTable_rows (cols0 : List String) (custCol : String) (df : Table) :
    (accountsTable cols0 custCol df).rows =
      dedupBy (fun r => r.getD 0 Val.missing) (project df (accountsColsOf cols0 custCol)).rows := by
  have h0 : (accountsTable cols0 custCol df).rows =
      dedupBy (fun r => lookupVal (accountsColsOf cols0 custCol) r "AccountID")
        (project df (accountsColsOf cols0 custCol)).rows := rfl
  rw [h0]
  congr 1

/-- C8: first-occurrence-wins deduplication.  For any key value `k`, the rows
of the Customers (resp. Accounts) table whose key entry is `k` are exactly
the first projected input row carrying that key: when several input rows
share a key and differ elsewhere, exactly one output row survives and it is
the earliest in input order. -/
theorem dedup_first_occurrence_wins (df : Table) (s : Sheets) (custCol : String) (k : Val)
    (h : build_relational_sheets df = Except.ok s)
    (hc : find_col df.cols "Customer ID" = some custCol) :
    s.customers.rows.filter (fun r => r.getD 0 Val.missing == k) =
      ((project (df3Of df custCol) (customersColsOf df.cols custCol)).rows.filter
        (fun r => r.getD 0 Val.missing == k)).take 1 ∧
    s.accounts.rows.filter (fun r => r.getD 0 Val.missing == k) =
      ((project (df3Of df custCol) (accountsColsOf df.cols custCol)).rows.filter
        (fun r => r.getD 0 Val.missing == k)).take 1 := by
  obtain ⟨c, hc2, rfl⟩ := (build_ok_iff df s).1 h
  rw [hc] at hc2
  injection hc2 with hc2
  subst hc2
  constructor
  · have hrows : (sheetsOf df custCol).customers.rows =
        dedupBy (fun r => r.getD 0 Val.missing)
          (project (df3Of df custCol) (customersColsOf df.cols custCol)).rows :=
      customersTable_rows df.cols custCol (df3Of df custCol)
    rw [hrows, dedupBy_filter_key]
  · have hrows : (sheetsOf df custCol).accounts.rows =
        dedupBy (fun r => r.getD 0 Val.missing)
          (project (df3Of df custCol) (accountsColsOf df.cols custCol)).rows :=
      accountsTable_rows df.cols custCol (df3Of df custCol)
    rw [hrows, dedupBy_filter_key]

set_option maxRecDepth 40000 in
/-- Witness for C8 at a concrete two-row input with a shared key. -/
theorem dedup_first_occurrence_wins_witness :
    (build_relational_sheets dupCustInput = Except.ok (sheetsOf dupCustInput "Customer ID") ∧
      find_col dupCustInput.cols "Customer ID" = some "Customer ID") ∧
    ((sheetsOf dupCustInput "Customer ID").customers.rows.filter
        (fun r => r.getD 0 Val.missing == Val.str "A") =
      ((project (df3Of dupCustInput "Customer ID")
          (customersColsOf dupCustInput.cols "Customer ID")).rows.filter
        (fun r => r.getD 0 Val.missing == Val.str "A")).take 1 ∧
    (sheetsOf dupCustInput "Customer ID").accounts.rows.filter
        (fun r => r.getD 0 Val.missing == Val.str "A") =
      ((project (df3Of dupCustInput "Customer ID")
          (accountsColsOf dupCustInput.cols "Customer ID")).rows.filter
        (fun r => r.getD 0 Val.missing == Val.str "A")).take 1) :=
  ⟨⟨rfl, by decide⟩,
    dedup_first_occurrence_wins dupCustInput (sheetsOf dupCustInput "Customer ID")
      "Customer ID" (Val.str "A") rfl (by decide)⟩

end ETL

namespace ETL

/-! ## Positional lemmas -/

theorem updateAt_nil (f : Val → Val) (i : Nat) : updateAt f i [] = [] := by
  cases i <;> rfl

theorem length_updateAt (f : Val → Val) (i : Nat) (r : List Val) :
    (updateAt f i r).length = r.length := by
  induction r generalizing i with
  | nil => rw [updateAt_nil]
  | cons v vs ih => cases i <;> simp [updateAt, ih]

theorem getD_updateAt_ne (f : Val → Val) (i j : Nat) (r : List Val) (d : Val) (hij : i ≠ j) :
    (updateAt f i r).getD j d = r.getD j d := by
  induction r generalizing i j with
  | nil => rw [updateAt_nil]
  | cons v vs ih =>
      cases i with
      | zero =>
          cases j with
          | zero => exact absurd rfl hij
          | succ j => simp [updateAt]
      | succ i =>
          cases j with
          | zero => simp [updateAt]
          | succ j => simpa [updateAt] using ih i j (fun h => hij (by rw [h]))

theorem getD_updateAt_self (f : Val → Val) (i : Nat) (r : List Val) (hi : i < r.length) :
    (updateAt f i r).getD i Val.missing = f (r.getD i Val.missing) := by
  induction r generalizing i with
  | nil => simp at hi
  | cons v vs ih =>
      cases i with
      | zero => simp [updateAt]
      | succ i => simpa [updateAt] using ih i (by simpa using hi)

theorem colIdx_lt (cols : List String) (c : String) (i : Nat) (h : colIdx cols c = some i) :
    i < cols.length := by
  induction cols generalizing i with
  | nil => simp [colIdx] at h
  | cons c0 cs ih =>
      by_cases h0 : c0 = c
      · rw [colIdx, if_pos h0] at h
        injection h with h
        subst h
        simp
      · rw [colIdx, if_neg h0] at h
        cases hj : colIdx cs c with
        | none => rw [hj] at h; simp at h
        | some j =>
            rw [hj] at h
            simp at h
            have := ih j hj
            simp only [List.length_cons]
            omega

theorem colIdx_getD (cols : List String) (c : String) (i : Nat) (h : colIdx cols c = some i) :
    cols.getD i "" = c := by
  induction cols generalizing i with
  | nil => simp [colIdx] at h
  | cons c0 cs ih =>
      by_cases h0 : c0 = c
      · rw [colIdx, if_pos h0] at h
        injection h with h
        subst h
        simpa using h0
      · rw [colIdx, if_neg h0] at h
        cases hj : colIdx cs c with
        | none => rw [hj] at h; simp at h
        | some j =>
            rw [hj] at h
            simp at h
            subst h
            simpa using ih j hj

theorem colIdx_ne (cols : List String) (a b : String) (i j : Nat)
    (ha : colIdx cols a = some i) (hb : colIdx cols b = some j) (hab : a ≠ b) : i ≠ j := by
  intro h
  exact hab (by rw [← colIdx_getD cols a i ha, ← colIdx_getD cols b j hb, h])

theorem colIdx_append_left (cols l2 : List String) (c : String) (i : Nat)
    (h : colIdx cols c = some i) : colIdx (cols ++ l2) c = some i := by
  induction cols generalizing i with
  | nil => simp [colIdx] at h
  | cons c0 cs ih =>
      by_cases h0 : c0 = c
      · rw [colIdx, if_pos h0] at h
        rw [List.cons_append, colIdx, if_pos h0]
        exact h
      · rw [colIdx, if_neg h0] at h
        cases hj : colIdx cs c with
        | none => rw [hj] at h; simp at h
        | some j =>
            rw [hj] at h
            rw [List.cons_append, colIdx, if_neg h0, ih j hj]
            exact h

theorem colIdx_of_mem (cols : List String) (c : String) (h : c ∈ cols) :
    ∃ i, colIdx cols c = some i := by
  induction cols with
  | nil => simp at h
  | cons c0 cs ih =>
      by_cases h0 : c0 = c
      · exact ⟨0, by rw [colIdx, if_pos h0]⟩
      · have : c ∈ cs := by
          rcases List.mem_cons.1 h with rfl | hm
          · exact absurd rfl h0
          · exact hm
        obtain ⟨j, hj⟩ := ih this
        exact ⟨j + 1, by rw [colIdx, if_neg h0, hj]; rfl⟩

theorem colIdx_append_self (cols : List String) (name : String)
    (h : colIdx cols name = none) : colIdx (cols ++ [name]) name = some cols.length := by
  induction cols with
  | nil => simp [colIdx]
  | cons c0 cs ih =>
      rw [colIdx] at h
      by_cases h0 : c0 = name
      · rw [if_pos h0] at h
        simp at h
      · rw [if_neg h0] at h
        have hcs : colIdx cs name = none := by
          cases hj : colIdx cs name with
          | none => rfl
          | some j => rw [hj] at h; simp at h
        rw [List.cons_append, colIdx, if_neg h0, ih hcs]
        rfl

theorem find_col_norm (cols : List String) (t a : String) (h : find_col cols t = some a) :
    normKey a = normKey t := by
  simp only [find_col] at h
  have := List.find?_some h
  simpa using this

theorem find_col_mem (cols : List String) (t a : String) (h : find_col cols t = some a) :
    a ∈ cols := by
  simp only [find_col] at h
  exact List.mem_of_find?_eq_some h

/-- `getD` of a mapped row list, in range. -/
theorem getD_map_in {α β : Type} (F : α → β) (rows : List α) (n : Nat) (d : α) (d2 : β)
    (hn : n < rows.length) : (rows.map F).getD n d2 = F (rows.getD n d) := by
  rw [List.getD_eq_getElem _ _ (by simpa using hn), List.getElem_map,
    List.getD_eq_getElem _ _ hn]

/-- `getD` of a mapped row list, for maps fixing the default. -/
theorem rows_map_getD (F : List Val → List Val) (hF : F [] = []) (rows : List (List Val))
    (n : Nat) : (rows.map F).getD n [] = F (rows.getD n []) := by
  rcases Nat.lt_or_ge n rows.length with h | h
  · exact getD_map_in F rows n [] [] h
  · rw [List.getD_eq_default _ _ (by simpa using h), List.getD_eq_default _ _ h, hF]

theorem lookupVal_nil (cols : List String) (c : String) : lookupVal cols [] c = Val.missing := by
  unfold lookupVal
  cases colIdx cols c <;> simp

end ETL

namespace ETL

/-! ## Pipeline correspondence lemmas -/

theorem coerceCol_cols (f : Val → Val) (a : String) (df : Table) :
    (coerceCol f a df).cols = df.cols := by
  unfold coerceCol
  cases colIdx df.cols a <;> rfl

theorem coerceCol_length (f : Val → Val) (a : String) (df : Table) :
    (coerceCol f a df).rows.length = df.rows.length := by
  unfold coerceCol
  cases colIdx df.cols a <;> simp

theorem coerceCol_WF (f : Val → Val) (a : String) (df : Table) (h : df.WF) :
    (coerceCol f a df).WF := by
  unfold coerceCol
  cases hi : colIdx df.cols a with
  | none => exact h
  | some i =>
      intro r hr
      obtain ⟨r0, hr0, rfl⟩ := List.mem_map.1 hr
      simpa [length_updateAt] using h r0 hr0

theorem coerceCol_lookup_ne (f : Val → Val) (a c : String) (df : Table) (n : Nat)
    (hca : c ≠ a) :
    lookupVal (coerceCol f a df).cols ((coerceCol f a df).rows.getD n []) c =
      lookupVal df.cols (df.rows.getD n []) c := by
  cases hi : colIdx df.cols a with
  | none => simp [coerceCol, hi]
  | some i =>
      simp only [coerceCol, hi]
      rw [rows_map_getD _ (updateAt_nil f i)]
      cases hj : colIdx df.cols c with
      | none => simp [lookupVal, hj]
      | some j =>
          have hij : i ≠ j := colIdx_ne df.cols a c i j hi hj (fun h => hca h.symm)
          simp only [lookupVal, hj]
          exact getD_updateAt_ne f i j _ _ hij

theorem coerceResolved_cols (f : Val → Val) (cols0 : List String) (t : String) (df : Table) :
    (coerceResolved f cols0 t df).cols = df.cols := by
  unfold coerceResolved
  cases find_col cols0 t with
  | none => rfl
  | some a => exact coerceCol_cols f a df

theorem coerceResolved_length (f : Val → Val) (cols0 : List String) (t : String) (df : Table) :
    (coerceResolved f cols0 t df).rows.length = df.rows.length := by
  unfold coerceResolved
  cases find_col cols0 t with
  | none => rfl
  | some a => exact coerceCol_length f a df

theorem coerceResolved_WF (f : Val → Val) (cols0 : List String) (t : String) (df : Table)
    (h : df.WF) : (coerceResolved f cols0 t df).WF := by
  unfold coerceResolved
  cases find_col cols0 t with
  | none => exact h
  | some a => exact coerceCol_WF f a df h

theorem coerceResolved_lookup (f : Val → Val) (cols0 : List String) (t : String) (df : Table)
    (c : String) (n : Nat) (hne : normKey c ≠ normKey t) :
    lookupVal (coerceResolved f cols0 t df).cols ((coerceResolved f cols0 t df).rows.getD n []) c =
      lookupVal df.cols (df.rows.getD n []) c := by
  unfold coerceResolved
  cases h : find_col cols0 t with
  | none => rfl
  | some a =>
      have hna := find_col_norm cols0 t a h
      have hca : c ≠ a := fun hc => hne (hc ▸ hna)
      exact coerceCol_lookup_ne f a c df n hca

theorem coercePass_cols (f : Val → Val) (cols0 targets : List String) (df : Table) :
    (coercePass f cols0 targets df).cols = df.cols := by
  induction targets generalizing df with
  | nil => rfl
  | cons t ts ih =>
      show (coercePass f cols0 ts (coerceResolved f cols0 t df)).cols = df.cols
      rw [ih, coerceResolved_cols]

theorem coercePass_length (f : Val → Val) (cols0 targets : List String) (df : Table) :
    (coercePass f cols0 targets df).rows.length = df.rows.length := by
  induction targets generalizing df with
  | nil => rfl
  | cons t ts ih =>
      show (coercePass f cols0 ts (coerceResolved f cols0 t df)).rows.length = df.rows.length
      rw [ih, coerceResolved_length]

theorem coercePass_WF (f : Val → Val) (cols0 targets : List String) (df : Table) (h : df.WF) :
    (coercePass f cols0 targets df).WF := by
  induction targets generalizing df with
  | nil => exact h
  | cons t ts ih =>
      show (coercePass f cols0 ts (coerceResolved f cols0 t df)).WF
      exact ih _ (coerceResolved_WF f cols0 t df h)

theorem coercePass_lookup (f : Val → Val) (cols0 targets : List String) (df : Table)
    (c : String) (n : Nat) (h : ∀ t ∈ targets, normKey c ≠ normKey t) :
    lookupVal (coercePass f cols0 targets df).cols
        ((coercePass f cols0 targets df).rows.getD n []) c =
      lookupVal df.cols (df.rows.getD n []) c := by
  induction targets generalizing df with
  | nil => rfl
  | cons t ts ih =>
      show lookupVal (coercePass f cols0 ts (coerceResolved f cols0 t df)).cols
          ((coercePass f cols0 ts (coerceResolved f cols0 t df)).rows.getD n []) c =
        lookupVal df.cols (df.rows.getD n []) c
      rw [ih (coerceResolved f cols0 t df) (fun t2 ht2 => h t2 (List.mem_cons_of_mem _ ht2))]
      exact coerceResolved_lookup f cols0 t df c n (h t (List.mem_cons_self _ _))

theorem coercePasses_cols (df : Table) : (coercePasses df).cols = df.cols := by
  unfold coercePasses
  rw [coercePass_cols, coercePass_cols]

theorem coercePasses_length (df : Table) : (coercePasses df).rows.length = df.rows.length := by
  unfold coercePasses
  rw [coercePass_length, coercePass_length]

theorem coercePasses_WF (df : Table) (h : df.WF) : (coercePasses df).WF := by
  unfold coercePasses
  exact coercePass_WF _ _ _ _ (coercePass_WF _ _ _ _ h)

theorem coercePasses_lookup (df : Table) (c : String) (n : Nat)
    (h : ∀ t ∈ date_cols ++ numeric_cols, normKey c ≠ normKey t) :
    lookupVal (coercePasses df).cols ((coercePasses df).rows.getD n []) c =
      lookupVal df.cols (df.rows.getD n []) c := by
  unfold coercePasses
  rw [coercePass_lookup _ _ _ _ _ _
    (fun t ht => h t (List.mem_append.2 (Or.inr ht)))]
  exact coercePass_lookup _ _ _ _ _ _ (fun t ht => h t (List.mem_append.2 (Or.inl ht)))

end ETL

namespace ETL

theorem setColByRow_length (df : Table) (name : String) (g : List Val → Val) :
    (setColByRow df name g).rows.length = df.rows.length := by
  unfold setColByRow
  cases colIdx df.cols name <;> simp

theorem setColByRow_lookup_ne (df : Table) (name : String) (g : List Val → Val)
    (c : String) (n : Nat) (hcn : c ≠ name) (hmem : c ∈ df.cols) (hwf : df.WF) :
    lookupVal (setColByRow df name g).cols ((setColByRow df name g).rows.getD n []) c =
      lookupVal df.cols (df.rows.getD n []) c := by
  cases hi : colIdx df.cols name with
  | some i =>
      simp only [setColByRow, hi]
      rw [rows_map_getD _ (by rw [updateAt_nil]) df.rows n]
      cases hj : colIdx df.cols c with
      | none => simp [lookupVal, hj]
      | some j =>
          have hij : i ≠ j := colIdx_ne df.cols name c i j hi hj (fun h => hcn h.symm)
          simp only [lookupVal, hj]
          exact getD_updateAt_ne _ i j _ _ hij
  | none =>
      simp only [setColByRow, hi]
      obtain ⟨j, hj⟩ := colIdx_of_mem df.cols c hmem
      have hj2 : colIdx (df.cols ++ [name]) c = some j := colIdx_append_left df.cols [name] c j hj
      rcases Nat.lt_or_ge n df.rows.length with hn | hn
      · rw [getD_map_in _ df.rows n [] [] hn]
        simp only [lookupVal, hj, hj2]
        have hrow : (df.rows.getD n []).length = df.cols.length := by
          have : df.rows.getD n [] ∈ df.rows := by
            rw [List.getD_eq_getElem _ _ hn]
            exact List.getElem_mem _
          exact hwf _ this
        have hjlt : j < (df.rows.getD n []).length := hrow ▸ colIdx_lt df.cols c j hj
        exact List.getD_append _ _ _ _ hjlt
      · rw [List.getD_eq_default _ _ (by simpa using hn), List.getD_eq_default _ _ hn]
        simp [lookupVal, hj, hj2]

theorem setColByRow_lookup_self (df : Table) (name : String) (g : List Val → Val)
    (n : Nat) (hwf : df.WF) (hn : n < df.rows.length) :
    lookupVal (setColByRow df name g).cols ((setColByRow df name g).rows.getD n []) name =
      g (df.rows.getD n []) := by
  have hrowmem : df.rows.getD n [] ∈ df.rows := by
    rw [List.getD_eq_getElem _ _ hn]
    exact List.getElem_mem _
  have hrow : (df.rows.getD n []).length = df.cols.length := hwf _ hrowmem
  cases hi : colIdx df.cols name with
  | some i =>
      simp only [setColByRow, hi]
      rw [getD_map_in _ df.rows n [] [] hn]
      simp only [lookupVal, hi]
      have hilt : i < (df.rows.getD n []).length := hrow ▸ colIdx_lt df.cols name i hi
      rw [getD_updateAt_self _ i _ hilt]
  | none =>
      simp only [setColByRow, hi]
      rw [getD_map_in _ df.rows n [] [] hn]
      have hself : colIdx (df.cols ++ [name]) name = some df.cols.length :=
        colIdx_append_self df.cols name hi
      simp only [lookupVal, hself]
      rw [List.getD_append_right _ _ _ _ (by omega)]
      rw [hrow]
      simp

theorem df3Of_length (df : Table) (cc : String) :
    (df3Of df cc).rows.length = df.rows.length := by
  unfold df3Of
  rw [setColByRow_length, coercePasses_length]

theorem df3Of_lookup (df : Table) (cc c : String) (n : Nat) (hwf : df.WF)
    (hmem : c ∈ df.cols) (hAcc : c ≠ "AccountID")
    (hnot : ∀ t ∈ date_cols ++ numeric_cols, normKey c ≠ normKey t) :
    lookupVal (df3Of df cc).cols ((df3Of df cc).rows.getD n []) c =
      lookupVal df.cols (df.rows.getD n []) c := by
  unfold df3Of
  rw [setColByRow_lookup_ne _ _ _ c n hAcc (by rw [coercePasses_cols]; exact hmem)
    (coercePasses_WF df hwf)]
  exact coercePasses_lookup df c n hnot

theorem project_length (df : Table) (sel : List String) :
    (project df sel).rows.length = df.rows.length := by
  simp [project]

theorem project_getD (df : Table) (sel : List String) (n : Nat) (hn : n < df.rows.length) :
    (project df sel).rows.getD n [] = sel.map (lookupVal df.cols (df.rows.getD n [])) := by
  show ((df.rows.map _).getD n []) = _
  rw [getD_map_in _ df.rows n [] [] hn]

end ETL

namespace ETL

/-- The customer column heads the customers projection. -/
theorem customersColsOf_cons (cols0 : List String) (cc : String) :
    customersColsOf cols0 cc =
      cc :: optCols [find_col cols0 "First Name", find_col cols0 "Last Name",
        find_col cols0 "Age", find_col cols0 "Gender", find_col cols0 "Address",
        find_col cols0 "City", find_col cols0 "Contact Number", find_col cols0 "Email"] := by
  simp [customersColsOf, optCols]

/-- C10: missing keys are equal for deduplication purposes.  All rows whose
`CustomerID` (resp. `BranchID`) is the missing marker collapse to at most
one output row in Customers (resp. Branches); and as soon as one input row
has a missing customer id, Customers holds exactly one such row. -/
theorem missing_keys_collapse (df : Table) (s : Sheets) (custCol : String)
    (h : build_relational_sheets df = Except.ok s)
    (hc : find_col df.cols "Customer ID" = some custCol)
    (hwf : df.WF) :
    (s.customers.rows.filter (fun r => r.getD 0 Val.missing == Val.missing)).length ≤ 1 ∧
    (s.branches.rows.filter (fun r => r.getD 0 Val.missing == Val.missing)).length ≤ 1 ∧
    ((∃ n, n < df.rows.length ∧
        lookupVal df.cols (df.rows.getD n []) custCol = Val.missing) →
      (s.customers.rows.filter (fun r => r.getD 0 Val.missing == Val.missing)).length = 1) := by
  obtain ⟨c, hc2, rfl⟩ := (build_ok_iff df s).1 h
  rw [hc] at hc2
  injection hc2 with hc2
  subst hc2
  have hcust : (sheetsOf df custCol).customers.rows.filter
        (fun r => r.getD 0 Val.missing == Val.missing) =
      ((project (df3Of df custCol) (customersColsOf df.cols custCol)).rows.filter
        (fun r => r.getD 0 Val.missing == Val.missing)).take 1 := by
    show (customersTable df.cols custCol (df3Of df custCol)).rows.filter _ = _
    rw [customersTable_rows, dedupBy_filter_key]
  refine ⟨?_, ?_, ?_⟩
  · rw [hcust]
    have := List.length_take 1 ((project (df3Of df custCol)
      (customersColsOf df.cols custCol)).rows.filter
        (fun r => r.getD 0 Val.missing == Val.missing))
    omega
  · show ((branchesTable df.cols (df3Of df custCol)).rows.filter _).length ≤ 1
    cases hb : find_col df.cols "Branch ID" with
    | none => simp [branchesTable, hb]
    | some b =>
        have hrows : (branchesTable df.cols (df3Of df custCol)).rows =
            dedupBy id (project (df3Of df custCol) [b]).rows := by
          simp [branchesTable, hb, applyRename]
        rw [hrows]
        refine length_le_one_of_nodup_const _ [Val.missing]
          (List.Nodup.filter _ (dedupBy_id_nodup _)) ?_
        intro r hr
        have hmem := List.mem_filter.1 hr
        have hr2 := (mem_dedupBy_id _ _).1 hmem.1
        have hr3 : r ∈ (df3Of df custCol).rows.map
            (fun row => [lookupVal (df3Of df custCol).cols row b]) := by
          simpa [project] using hr2
        obtain ⟨row, hrow, rfl⟩ := List.mem_map.1 hr3
        have hp := hmem.2
        simp only [List.getD_cons_zero, beq_iff_eq] at hp
        rw [hp]
  · rintro ⟨n, hn, hmiss⟩
    rw [hcust]
    have hnorm := find_col_norm df.cols "Customer ID" custCol hc
    have hAccc : custCol ≠ "AccountID" := by
      intro hcc
      rw [hcc] at hnorm
      exact absurd hnorm (by decide)
    have hnot0 : ∀ t ∈ date_cols ++ numeric_cols,
        normKey "Customer ID" ≠ normKey t := by decide
    have hnotc : ∀ t ∈ date_cols ++ numeric_cols, normKey custCol ≠ normKey t := by
      intro t ht
      rw [hnorm]
      exact hnot0 t ht
    have hmemc : custCol ∈ df.cols := find_col_mem df.cols "Customer ID" custCol hc
    have hlen : n < (project (df3Of df custCol)
        (customersColsOf df.cols custCol)).rows.length := by
      rw [project_length, df3Of_length]
      exact hn
    have hget : (project (df3Of df custCol) (customersColsOf df.cols custCol)).rows.getD n [] ∈
        (project (df3Of df custCol) (customersColsOf df.cols custCol)).rows := by
      rw [List.getD_eq_getElem _ _ hlen]
      exact List.getElem_mem _
    have hhead : ((project (df3Of df custCol)
        (customersColsOf df.cols custCol)).rows.getD n []).getD 0 Val.missing = Val.missing := by
      rw [project_getD _ _ n (by rw [df3Of_length]; exact hn), customersColsOf_cons]
      simp only [List.map_cons, List.getD_cons_zero]
      rw [df3Of_lookup df custCol custCol n hwf hmemc hAccc hnotc]
      exact hmiss
    have hne : (project (df3Of df custCol) (customersColsOf df.cols custCol)).rows.filter
        (fun r => r.getD 0 Val.missing == Val.missing) ≠ [] :=
      List.ne_nil_of_mem (List.mem_filter.2 ⟨hget, by
        simp only [beq_iff_eq]
        exact hhead⟩)
    cases hl : (project (df3Of df custCol) (customersColsOf df.cols custCol)).rows.filter
        (fun r => r.getD 0 Val.missing == Val.missing) with
    | nil => exact absurd hl hne
    | cons a l => simp

set_option maxRecDepth 40000 in
/-- Witness for C10 at a concrete input with two missing-key rows. -/
theorem missing_keys_collapse_witness :
    (build_relational_sheets missingKeysInput =
        Except.ok (sheetsOf missingKeysInput "Customer ID") ∧
      find_col missingKeysInput.cols "Customer ID" = some "Customer ID" ∧
      missingKeysInput.WF) ∧
    (((sheetsOf missingKeysInput "Customer ID").customers.rows.filter
        (fun r => r.getD 0 Val.missing == Val.missing)).length ≤ 1 ∧
      ((sheetsOf missingKeysInput "Customer ID").branches.rows.filter
        (fun r => r.getD 0 Val.missing == Val.missing)).length ≤ 1 ∧
      ((∃ n, n < missingKeysInput.rows.length ∧
          lookupVal missingKeysInput.cols (missingKeysInput.rows.getD n []) "Customer ID" =
            Val.missing) →
        ((sheetsOf missingKeysInput "Customer ID").customers.rows.filter
          (fun r => r.getD 0 Val.missing == Val.missing)).length = 1)) :=
  ⟨⟨rfl, by decide, by decide⟩,
    missing_keys_collapse missingKeysInput (sheetsOf missingKeysInput "Customer ID")
      "Customer ID" rfl (by decide) (by decide)⟩

end ETL

namespace ETL

/-- C7: the Anomalies table.  With no anomaly column the output is the empty
table with exactly the columns `CustomerID`, `Anomaly`.  Otherwise every
output row has a non-missing anomaly value (rows with the missing marker are
excluded), equal `(CustomerID, Anomaly)` pairs collapse (the output rows are
duplicate-free), and every input row with a non-missing anomaly value
contributes its pair to the output. -/
theorem anomalies_spec (df : Table) (s : Sheets) (custCol a : String)
    (h : build_relational_sheets df = Except.ok s)
    (hc : find_col df.cols "Customer ID" = some custCol)
    (hwf : df.WF) :
    (find_col df.cols "Anomaly" = none →
      s.anomalies = { cols := ["CustomerID", "Anomaly"], rows := [] }) ∧
    (∀ r ∈ s.anomalies.rows, r.getD 1 Val.missing ≠ Val.missing) ∧
    s.anomalies.rows.Nodup ∧
    (find_col df.cols "Anomaly" = some a →
      s.anomalies.cols = ["CustomerID", "Anomaly"] ∧
      ∀ n, n < df.rows.length →
        lookupVal df.cols (df.rows.getD n []) a ≠ Val.missing →
        [lookupVal df.cols (df.rows.getD n []) custCol,
          lookupVal df.cols (df.rows.getD n []) a] ∈ s.anomalies.rows) := by
  obtain ⟨c, hc2, rfl⟩ := (build_ok_iff df s).1 h
  rw [hc] at hc2
  injection hc2 with hc2
  subst hc2
  have hnormc := find_col_norm df.cols "Customer ID" custCol hc
  refine ⟨?_, ?_, ?_, ?_⟩
  · intro hA
    show anomaliesTable df.cols custCol (df3Of df custCol) = _
    simp [anomaliesTable, hA]
  · intro r hr
    show r.getD 1 Val.missing ≠ Val.missing
    revert hr
    show r ∈ (anomaliesTable df.cols custCol (df3Of df custCol)).rows → _
    cases hA : find_col df.cols "Anomaly" with
    | none => simp [anomaliesTable, hA]
    | some a2 =>
        intro hr
        have hrows : (anomaliesTable df.cols custCol (df3Of df custCol)).rows =
            dedupBy id (((project (df3Of df custCol) [custCol, a2]).rows).filter
              (fun r => r.getD 1 Val.missing ≠ Val.missing)) := by
          simp [anomaliesTable, hA, applyRename]
        rw [hrows] at hr
        have := List.mem_filter.1 ((mem_dedupBy_id _ _).1 hr)
        simpa using this.2
  · show ((anomaliesTable df.cols custCol (df3Of df custCol)).rows).Nodup
    cases hA : find_col df.cols "Anomaly" with
    | none => simp [anomaliesTable, hA]
    | some a2 =>
        have hrows : (anomaliesTable df.cols custCol (df3Of df custCol)).rows =
            dedupBy id (((project (df3Of df custCol) [custCol, a2]).rows).filter
              (fun r => r.getD 1 Val.missing ≠ Val.missing)) := by
          simp [anomaliesTable, hA, applyRename]
        rw [hrows]
        exact dedupBy_id_nodup _
  · intro hA
    have hnorma := find_col_norm df.cols "Anomaly" a hA
    have hca : custCol ≠ a := by
      intro hcc
      rw [← hcc] at hnorma
      rw [hnorma] at hnormc
      exact absurd hnormc (by decide)
    have hmema : a ∈ df.cols := find_col_mem df.cols "Anomaly" a hA
    have hmemc : custCol ∈ df.cols := find_col_mem df.cols "Customer ID" custCol hc
    have hAcca : a ≠ "AccountID" := by
      intro hcc
      rw [hcc] at hnorma
      exact absurd hnorma (by decide)
    have hAccc : custCol ≠ "AccountID" := by
      intro hcc
      rw [hcc] at hnormc
      exact absurd hnormc (by decide)
    have hnot0c : ∀ t ∈ date_cols ++ numeric_cols,
        normKey "Customer ID" ≠ normKey t := by decide
    have hnot0a : ∀ t ∈ date_cols ++ numeric_cols, normKey "Anomaly" ≠ normKey t := by decide
    have hnotc : ∀ t ∈ date_cols ++ numeric_cols, normKey custCol ≠ normKey t := by
      intro t ht
      rw [hnormc]
      exact hnot0c t ht
    have hnota : ∀ t ∈ date_cols ++ numeric_cols, normKey a ≠ normKey t := by
      intro t ht
      rw [hnorma]
      exact hnot0a t ht
    constructor
    · show (anomaliesTable df.cols custCol (df3Of df custCol)).cols = _
      have hbeq : (custCol == a) = false := by
        simp only [beq_eq_false_iff_ne, ne_eq]
        exact hca
      simp [anomaliesTable, hA, applyRename, renameApply, project, hbeq]
    · intro n hn hmiss
      have hrows : (anomaliesTable df.cols custCol (df3Of df custCol)).rows =
          dedupBy id (((project (df3Of df custCol) [custCol, a]).rows).filter
            (fun r => r.getD 1 Val.missing ≠ Val.missing)) := by
        simp [anomaliesTable, hA, applyRename]
      show _ ∈ (anomaliesTable df.cols custCol (df3Of df custCol)).rows
      rw [hrows, mem_dedupBy_id]
      have hlen : n < (project (df3Of df custCol) [custCol, a]).rows.length := by
        rw [project_length, df3Of_length]
        exact hn
      have hpair : (project (df3Of df custCol) [custCol, a]).rows.getD n [] =
          [lookupVal df.cols (df.rows.getD n []) custCol,
            lookupVal df.cols (df.rows.getD n []) a] := by
        rw [project_getD _ _ n (by rw [df3Of_length]; exact hn)]
        simp only [List.map_cons, List.map_nil]
        rw [df3Of_lookup df custCol custCol n hwf hmemc hAccc hnotc,
          df3Of_lookup df custCol a n hwf hmema hAcca hnota]
      refine List.mem_filter.2 ⟨?_, ?_⟩
      · rw [← hpair]
        rw [List.getD_eq_getElem _ _ hlen]
        exact List.getElem_mem _
      · simp only [decide_eq_true_eq]
        simp only [List.getD_cons_succ, List.getD_cons_zero]
        exact hmiss

end ETL

namespace ETL

set_option maxRecDepth 40000 in
/-- Witness for C7: the duplicated `("A", "Suspicious")` pair appears once;
the missing-anomaly row is excluded. -/
theorem anomalies_spec_witness :
    (build_relational_sheets anomaliesInput =
        Except.ok (sheetsOf anomaliesInput "Customer ID") ∧
      find_col anomaliesInput.cols "Customer ID" = some "Customer ID" ∧
      anomaliesInput.WF) ∧
    ((find_col anomaliesInput.cols "Anomaly" = none →
        (sheetsOf anomaliesInput "Customer ID").anomalies =
          { cols := ["CustomerID", "Anomaly"], rows := [] }) ∧
      (∀ r ∈ (sheetsOf anomaliesInput "Customer ID").anomalies.rows,
        r.getD 1 Val.missing ≠ Val.missing) ∧
      (sheetsOf anomaliesInput "Customer ID").anomalies.rows.Nodup ∧
      (find_col anomaliesInput.cols "Anomaly" = some "Anomaly" →
        (sheetsOf anomaliesInput "Customer ID").anomalies.cols = ["CustomerID", "Anomaly"] ∧
        ∀ n, n < anomaliesInput.rows.length →
          lookupVal anomaliesInput.cols (anomaliesInput.rows.getD n []) "Anomaly" ≠
            Val.missing →
          [lookupVal anomaliesInput.cols (anomaliesInput.rows.getD n []) "Customer ID",
            lookupVal anomaliesInput.cols (anomaliesInput.rows.getD n []) "Anomaly"] ∈
            (sheetsOf anomaliesInput "Customer ID").anomalies.rows)) :=
  ⟨⟨rfl, by decide, by decide⟩,
    anomalies_spec anomaliesInput (sheetsOf anomaliesInput "Customer ID")
      "Customer ID" "Anomaly" rfl (by decide) (by decide)⟩

end ETL

namespace ETL

/-- A rename either leaves the header alone or returns a map value. -/
theorem renameApply_cases (m : List (String × String)) (c : String) :
    renameApply m c = c ∨ ∃ p ∈ m, renameApply m c = p.2 := by
  unfold renameApply
  cases h : m.find? (fun p => p.1 == c) with
  | none => exact Or.inl rfl
  | some p => exact Or.inr ⟨p, List.mem_of_find?_eq_some h, rfl⟩

/-- With no `TransactionID` column resolved, no rename target is the literal
`TransactionID`. -/
theorem txRenames_values (cols0 : List String)
    (hT : find_col cols0 "TransactionID" = none) :
    ∀ p ∈ txRenames cols0, p.2 ≠ "TransactionID" := by
  intro p hp
  unfold txRenames renameEntries at hp
  rw [hT] at hp
  obtain ⟨x, hx, hgx⟩ := List.mem_filterMap.1 hp
  simp only [List.mem_cons, List.not_mem_nil, or_false] at hx
  rcases hx with rfl | rfl | rfl | rfl | rfl | rfl
  · simp at hgx
  all_goals
    obtain ⟨a2, ha2, rfl⟩ := Option.map_eq_some'.1 hgx
    simp

/-- With no `TransactionID` column resolved, no renamed projected header is
the literal `TransactionID`. -/
theorem txCols_no_txid (cols0 : List String)
    (hT : find_col cols0 "TransactionID" = none) :
    ∀ c0 ∈ transactionsColsOf cols0, renameApply (txRenames cols0) c0 ≠ "TransactionID" := by
  intro c0 hc0
  have hc0ne : c0 ≠ "TransactionID" := by
    unfold transactionsColsOf optCols at hc0
    rw [hT] at hc0
    obtain ⟨o, ho, hoc⟩ := List.mem_filterMap.1 hc0
    simp only [id_eq] at hoc
    subst hoc
    simp only [List.mem_cons, List.not_mem_nil, or_false] at ho
    rcases ho with h | h | h | h | h | h | h
    · exact absurd h (by simp)
    · intro hcc
      rw [hcc] at h
      exact absurd h (by decide)
    all_goals
      intro hcc
      rw [hcc] at h
      have hnk := find_col_norm cols0 _ _ h.symm
      revert hnk
      decide
  rcases renameApply_cases (txRenames cols0) c0 with hcase | ⟨p, hp, hcase⟩
  · rw [hcase]
    exact hc0ne
  · rw [hcase]
    exact txRenames_values cols0 hT p hp

end ETL

namespace ETL

/-- Without a `TransactionID` column, the Transactions table keeps every
projected row: the conditional deduplication is skipped. -/
theorem transactionsTable_no_txid (cols0 : List String) (df : Table)
    (hT : find_col cols0 "TransactionID" = none) :
    (transactionsTable cols0 df).rows = (project df (transactionsColsOf cols0)).rows := by
  have hnotin : "TransactionID" ∉
      (applyRename (txRenames cols0) (project df (transactionsColsOf cols0))).cols := by
    intro hmem
    simp only [applyRename, project] at hmem
    obtain ⟨c0, hc0, hcr⟩ := List.mem_map.1 hmem
    exact txCols_no_txid cols0 hT c0 hc0 hcr
  simp only [transactionsTable]
  rw [if_neg hnotin]
  rfl

/-- With a `TransactionID` column, the Transactions table deduplicates on it
(position 0 of the projection, renamed to the literal `TransactionID`). -/
theorem transactionsTable_with_txid (cols0 : List String) (df : Table) (k : String)
    (hT : find_col cols0 "TransactionID" = some k) :
    (transactionsTable cols0 df).rows =
      dedupBy (fun r => r.getD 0 Val.missing) (project df (transactionsColsOf cols0)).rows := by
  have hcols : transactionsColsOf cols0 = k :: optCols [some "AccountID",
      find_col cols0 "Transaction Date", find_col cols0 "Transaction Type",
      find_col cols0 "Transaction Amount", find_col cols0 "Account Balance After Transaction",
      find_col cols0 "Branch ID"] := by
    simp [transactionsColsOf, hT, optCols]
  have hm : txRenames cols0 = (k, "TransactionID") :: renameEntries
      [(find_col cols0 "Transaction Date", "TransactionDate"),
       (find_col cols0 "Transaction Type", "TransactionType"),
       (find_col cols0 "Transaction Amount", "TransactionAmount"),
       (find_col cols0 "Account Balance After Transaction",
         "AccountBalanceAfterTransaction"),
       (find_col cols0 "Branch ID", "BranchID")] := by
    unfold txRenames
    rw [hT]
    simp [renameEntries]
  have hhead : renameApply (txRenames cols0) k = "TransactionID" := by
    rw [hm]
    unfold renameApply
    rw [List.find?_cons_of_pos _ (by simp)]
  have hrencols : (applyRename (txRenames cols0)
      (project df (transactionsColsOf cols0))).cols =
      "TransactionID" :: (optCols [some "AccountID",
        find_col cols0 "Transaction Date", find_col cols0 "Transaction Type",
        find_col cols0 "Transaction Amount",
        find_col cols0 "Account Balance After Transaction",
        find_col cols0 "Branch ID"]).map (renameApply (txRenames cols0)) := by
    show (transactionsColsOf cols0).map (renameApply (txRenames cols0)) = _
    rw [hcols]
    simp [hhead]
  have hmem : "TransactionID" ∈
      (applyRename (txRenames cols0) (project df (transactionsColsOf cols0))).cols := by
    rw [hrencols]
    exact List.mem_cons_self _ _
  simp only [transactionsTable]
  rw [if_pos hmem]
  show dedupBy (fun r => lookupVal (applyRename (txRenames cols0)
      (project df (transactionsColsOf cols0))).cols r "TransactionID")
    (project df (transactionsColsOf cols0)).rows = _
  congr 1
  funext r
  rw [hrencols, lookupVal_cons_self]

/-- Without a `Loan ID` column the Loans table removes full-row duplicates. -/
theorem loansTable_rows_no_key (cols0 : List String) (cc : String) (df : Table)
    (hL : find_col cols0 "Loan ID" = none) :
    (loansTable cols0 cc df).rows = dedupBy id (project df (loansColsOf cols0 cc)).rows := by
  simp [loansTable, hL, applyRename]

/-- With a `Loan ID` column the Loans table deduplicates on it (position 0). -/
theorem loansTable_rows_key (cols0 : List String) (cc : String) (df : Table) (k : String)
    (hL : find_col cols0 "Loan ID" = some k) :
    (loansTable cols0 cc df).rows =
      dedupBy (fun r => r.getD 0 Val.missing) (project df (loansColsOf cols0 cc)).rows := by
  have hcols : loansColsOf cols0 cc = k :: optCols [some cc, find_col cols0 "Loan Amount",
      find_col cols0 "Loan Type", find_col cols0 "Interest Rate", find_col cols0 "Loan Term",
      find_col cols0 "Approval/Rejection Date", find_col cols0 "Loan Status",
      find_col cols0 "Branch ID"] := by
    simp [loansColsOf, hL, optCols]
  have h0 : (loansTable cols0 cc df).rows =
      dedupBy (fun r => lookupVal (loansColsOf cols0 cc) r k)
        (project df (loansColsOf cols0 cc)).rows := by
    simp only [loansTable, hL, applyRename]
    rfl
  rw [h0]
  congr 1
  funext r
  rw [hcols, lookupVal_cons_self]

/-- Without a `CardID` column the Cards table removes full-row duplicates. -/
theorem cardsTable_rows_no_key (cols0 : List String) (cc : String) (df : Table)
    (hC : find_col cols0 "CardID" = none) :
    (cardsTable cols0 cc df).rows = dedupBy id (project df (cardsColsOf cols0 cc)).rows := by
  simp [cardsTable, hC, applyRename]

/-- Without a `Feedback ID` column the Feedback table removes full-row duplicates. -/
theorem feedbackTable_rows_no_key (cols0 : List String) (cc : String) (df : Table)
    (hF : find_col cols0 "Feedback ID" = none) :
    (feedbackTable cols0 cc df).rows =
      dedupBy id (project df (feedbackColsOf cols0 cc)).rows := by
  simp [feedbackTable, hF, applyRename]

end ETL

namespace ETL

/-- C2 (amended): deduplication happens on the declared primary key exactly
when its column is declared and present.  When the key column is absent the
tables differ: Transactions retains every projected row, duplicates
included, while Loans, Cards and Feedback fall back to
`drop_duplicates(subset=None)` and remove full-row duplicates (their output
rows are duplicate-free). -/
theorem dedup_policy (df : Table) (s : Sheets) (custCol : String)
    (h : build_relational_sheets df = Except.ok s)
    (hc : find_col df.cols "Customer ID" = some custCol) :
    (find_col df.cols "TransactionID" = none →
      s.transactions.rows = (project (df3Of df custCol) (transactionsColsOf df.cols)).rows ∧
      s.transactions.rows.length = df.rows.length) ∧
    (∀ k, find_col df.cols "TransactionID" = some k →
      (s.transactions.rows.map (fun r => r.getD 0 Val.missing)).Nodup) ∧
    (find_col df.cols "Loan ID" = none → s.loans.rows.Nodup) ∧
    (∀ k, find_col df.cols "Loan ID" = some k →
      (s.loans.rows.map (fun r => r.getD 0 Val.missing)).Nodup) ∧
    (find_col df.cols "CardID" = none → s.cards.rows.Nodup) ∧
    (find_col df.cols "Feedback ID" = none → s.feedback.rows.Nodup) := by
  obtain ⟨c, hc2, rfl⟩ := (build_ok_iff df s).1 h
  rw [hc] at hc2
  injection hc2 with hc2
  subst hc2
  refine ⟨?_, ?_, ?_, ?_, ?_, ?_⟩
  · intro hT
    have h1 : (sheetsOf df custCol).transactions.rows =
        (project (df3Of df custCol) (transactionsColsOf df.cols)).rows :=
      transactionsTable_no_txid df.cols (df3Of df custCol) hT
    refine ⟨h1, ?_⟩
    rw [h1, project_length, df3Of_length]
  · intro k hT
    show ((transactionsTable df.cols (df3Of df custCol)).rows.map _).Nodup
    rw [transactionsTable_with_txid df.cols (df3Of df custCol) k hT]
    exact dedupBy_keys_nodup _ _
  · intro hL
    show ((loansTable df.cols custCol (df3Of df custCol)).rows).Nodup
    rw [loansTable_rows_no_key df.cols custCol _ hL]
    exact dedupBy_id_nodup _
  · intro k hL
    show ((loansTable df.cols custCol (df3Of df custCol)).rows.map _).Nodup
    rw [loansTable_rows_key df.cols custCol _ k hL]
    exact dedupBy_keys_nodup _ _
  · intro hC
    show ((cardsTable df.cols custCol (df3Of df custCol)).rows).Nodup
    rw [cardsTable_rows_no_key df.cols custCol _ hC]
    exact dedupBy_id_nodup _
  · intro hF
    show ((feedbackTable df.cols custCol (df3Of df custCol)).rows).Nodup
    rw [feedbackTable_rows_no_key df.cols custCol _ hF]
    exact dedupBy_id_nodup _

set_option maxRecDepth 40000 in
/-- Witness for the amended C2 at the concrete duplicated two-row input. -/
theorem dedup_policy_witness :
    (build_relational_sheets dupRowsInput = Except.ok (sheetsOf dupRowsInput "Customer ID") ∧
      find_col dupRowsInput.cols "Customer ID" = some "Customer ID") ∧
    ((find_col dupRowsInput.cols "TransactionID" = none →
        (sheetsOf dupRowsInput "Customer ID").transactions.rows =
          (project (df3Of dupRowsInput "Customer ID")
            (transactionsColsOf dupRowsInput.cols)).rows ∧
        (sheetsOf dupRowsInput "Customer ID").transactions.rows.length =
          dupRowsInput.rows.length) ∧
      (∀ k, find_col dupRowsInput.cols "TransactionID" = some k →
        ((sheetsOf dupRowsInput "Customer ID").transactions.rows.map
          (fun r => r.getD 0 Val.missing)).Nodup) ∧
      (find_col dupRowsInput.cols "Loan ID" = none →
        (sheetsOf dupRowsInput "Customer ID").loans.rows.Nodup) ∧
      (∀ k, find_col dupRowsInput.cols "Loan ID" = some k →
        ((sheetsOf dupRowsInput "Customer ID").loans.rows.map
          (fun r => r.getD 0 Val.missing)).Nodup) ∧
      (find_col dupRowsInput.cols "CardID" = none →
        (sheetsOf dupRowsInput "Customer ID").cards.rows.Nodup) ∧
      (find_col dupRowsInput.cols "Feedback ID" = none →
        (sheetsOf dupRowsInput "Customer ID").feedback.rows.Nodup)) :=
  ⟨⟨rfl, by decide⟩,
    dedup_policy dupRowsInput (sheetsOf dupRowsInput "Customer ID") "Customer ID" rfl
      (by decide)⟩

end ETL

namespace ETL

/-- C1 (amended): AccountID derivation.  The id is the fixed tag `ACC_`
followed by the first 12 hex characters of the SHA-1 digest of the UTF-8
encoding of the three stringified components joined by `"|"`; it is total
(never raises) and deterministic: two rows with identical relevant cells get
identical ids.  An absent AccountType or open-date column contributes the
empty string; a missing AccountType cell, however, is a truthy `NaN` and is
stringified as `"nan"` (and a missing open-date cell as `"NaT"`), not as the
empty string.  The derived column of the transformed frame holds exactly
these per-row ids. -/
theorem account_id_derivation :
    (∀ cust acct od : String, make_account_id cust acct od =
      "ACC_" ++ strTake (sha1Hex (strBytes (cust ++ "|" ++ acct ++ "|" ++ od))) 12) ∧
    (∀ cols (cc : String) (atc odc : Option String) r r2,
      lookupVal cols r cc = lookupVal cols r2 cc →
      (∀ a, atc = some a → lookupVal cols r a = lookupVal cols r2 a) →
      (∀ a, odc = some a → lookupVal cols r a = lookupVal cols r2 a) →
      accountIdOfRow cols cc atc odc r = accountIdOfRow cols cc atc odc r2) ∧
    (∀ cols (cc : String) r, accountIdOfRow cols cc none none r =
      make_account_id (pyStrObj (lookupVal cols r cc)) "" "") ∧
    (pyOrEmptyStr Val.missing = "nan" ∧ pyStrDateCol Val.missing = "NaT") ∧
    (∀ df (cc : String) n, df.WF → n < df.rows.length →
      lookupVal (df3Of df cc).cols ((df3Of df cc).rows.getD n []) "AccountID" =
        Val.str (accountIdOfRow (coercePasses df).cols cc
          (find_col df.cols "Account Type") (find_col df.cols "Date Of Account Opening")
          ((coercePasses df).rows.getD n []))) := by
  refine ⟨fun cust acct od => rfl, ?_, fun cols cc r => rfl, ⟨rfl, rfl⟩, ?_⟩
  · intro cols cc atc odc r r2 h1 h2 h3
    cases atc with
    | none =>
        cases odc with
        | none =>
            show make_account_id (pyStrObj (lookupVal cols r cc)) "" "" =
              make_account_id (pyStrObj (lookupVal cols r2 cc)) "" ""
            rw [h1]
        | some b =>
            show make_account_id (pyStrObj (lookupVal cols r cc)) ""
                (pyStrDateCol (lookupVal cols r b)) =
              make_account_id (pyStrObj (lookupVal cols r2 cc)) ""
                (pyStrDateCol (lookupVal cols r2 b))
            rw [h1, h3 b rfl]
    | some a =>
        cases odc with
        | none =>
            show make_account_id (pyStrObj (lookupVal cols r cc))
                (pyOrEmptyStr (lookupVal cols r a)) "" =
              make_account_id (pyStrObj (lookupVal cols r2 cc))
                (pyOrEmptyStr (lookupVal cols r2 a)) ""
            rw [h1, h2 a rfl]
        | some b =>
            show make_account_id (pyStrObj (lookupVal cols r cc))
                (pyOrEmptyStr (lookupVal cols r a))
                (pyStrDateCol (lookupVal cols r b)) =
              make_account_id (pyStrObj (lookupVal cols r2 cc))
                (pyOrEmptyStr (lookupVal cols r2 a))
                (pyStrDateCol (lookupVal cols r2 b))
            rw [h1, h2 a rfl, h3 b rfl]
  · intro df cc n hwf hn
    unfold df3Of
    exact setColByRow_lookup_self (coercePasses df) "AccountID" _ n
      (coercePasses_WF df hwf) (by rw [coercePasses_length]; exact hn)

set_option maxRecDepth 40000 in
/-- Witness for the amended C1: the derived-column wiring at the concrete
one-row input whose AccountType cell is missing. -/
theorem account_id_derivation_witness :
    (missingAcctInput.WF ∧ 0 < missingAcctInput.rows.length) ∧
    lookupVal (df3Of missingAcctInput "Customer ID").cols
        ((df3Of missingAcctInput "Customer ID").rows.getD 0 []) "AccountID" =
      Val.str (accountIdOfRow (coercePasses missingAcctInput).cols "Customer ID"
        (find_col missingAcctInput.cols "Account Type")
        (find_col missingAcctInput.cols "Date Of Account Opening")
        ((coercePasses missingAcctInput).rows.getD 0 [])) :=
  ⟨⟨by decide, by decide⟩,
    account_id_derivation.2.2.2.2 missingAcctInput "Customer ID" 0 (by decide) (by decide)⟩

end ETL
